import Mathlib

/-!
# Verification of the WebSocket scalable chat backend

A shallow embedding of the Python backend (`connection_manager.py`,
`models.py`, `redis_manager.py`, `main.py`) of the WebSocket-Scalable-Chat
repository, together with proofs about the claims of its specification.

Python dictionaries are embedded as association lists, Python sets as
duplicate-free lists with insertion-order semantics (`setAdd` appends,
`setDiscard` filters).  Operations that can raise a `KeyError` in Python are
embedded as `Option`-valued functions returning `none` exactly when the
Python code would raise.
-/

namespace Chat

/-! ## Association lists (embedding of Python `dict`) -/

section AList

variable {α : Type _} {β : Type _} [DecidableEq α]

/-- `d[k]` lookup on an association list: the value of the first pair whose
key is `k`, if any (embeds `dict.get` / `in` tests / subscripting). -/
def alistGet? (k : α) : List (α × β) → Option β
  | [] => none
  | (k', v) :: rest => if k' = k then some v else alistGet? k rest

/-- `d[k] = v` on an association list: overwrite the first binding of `k`,
or append a fresh binding at the end (Python dicts keep insertion order). -/
def alistSet (k : α) (v : β) : List (α × β) → List (α × β)
  | [] => [(k, v)]
  | (k', v') :: rest =>
      if k' = k then (k, v) :: rest else (k', v') :: alistSet k v rest

/-- `del d[k]` on an association list: drop the first binding of `k`. -/
def alistErase (k : α) : List (α × β) → List (α × β)
  | [] => []
  | (k', v') :: rest => if k' = k then rest else (k', v') :: alistErase k rest

@[simp] theorem alistGet?_nil (k : α) : alistGet? k ([] : List (α × β)) = none := rfl

theorem alistGet?_cons (k k' : α) (v : β) (l : List (α × β)) :
    alistGet? k ((k', v) :: l) = if k' = k then some v else alistGet? k l := rfl

theorem alistSet_cons (k k₀ : α) (v v₀ : β) (l : List (α × β)) :
    alistSet k v ((k₀, v₀) :: l) =
      if k₀ = k then (k, v) :: l else (k₀, v₀) :: alistSet k v l := rfl

theorem alistErase_cons (k k₀ : α) (v₀ : β) (l : List (α × β)) :
    alistErase k ((k₀, v₀) :: l) =
      if k₀ = k then l else (k₀, v₀) :: alistErase k l := rfl

theorem alistGet?_eq_none_iff (k : α) (l : List (α × β)) :
    alistGet? k l = none ↔ k ∉ l.map Prod.fst := by
  induction l with
  | nil => simp
  | cons p rest ih =>
      obtain ⟨k₀, v₀⟩ := p
      rw [alistGet?_cons, List.map_cons, List.mem_cons]
      by_cases h0 : k₀ = k
      · subst h0
        simp
      · rw [if_neg h0, ih]
        constructor
        · intro h hc
          rcases hc with hc | hc
          · exact h0 hc.symm
          · exact h hc
        · intro h hc
          exact h (Or.inr hc)

theorem alistGet?_isSome_iff (k : α) (l : List (α × β)) :
    (alistGet? k l).isSome = true ↔ k ∈ l.map Prod.fst := by
  constructor
  · intro h
    by_contra hc
    rw [(alistGet?_eq_none_iff k l).mpr hc] at h
    simp at h
  · intro h
    cases hres : alistGet? k l with
    | some v => simp
    | none => exact absurd h ((alistGet?_eq_none_iff k l).mp hres)

theorem alistGet?_alistSet (k k' : α) (v : β) (l : List (α × β)) :
    alistGet? k' (alistSet k v l) = if k = k' then some v else alistGet? k' l := by
  induction l with
  | nil => simp [alistSet, alistGet?_cons]
  | cons p rest ih =>
      obtain ⟨k₀, v₀⟩ := p
      by_cases h0 : k₀ = k
      · subst h0
        rw [alistSet_cons, if_pos rfl, alistGet?_cons, alistGet?_cons]
        by_cases h1 : k₀ = k' <;> simp [h1]
      · rw [alistSet_cons, if_neg h0, alistGet?_cons, ih, alistGet?_cons]
        by_cases h1 : k₀ = k'
        · have hk : ¬ k = k' := fun hc => h0 (h1.trans hc.symm)
          simp [h1, hk]
        · simp [h1]

@[simp] theorem alistGet?_alistSet_self (k : α) (v : β) (l : List (α × β)) :
    alistGet? k (alistSet k v l) = some v := by
  simp [alistGet?_alistSet]

theorem alistGet?_alistSet_ne (k k' : α) (v : β) (l : List (α × β)) (h : k ≠ k') :
    alistGet? k' (alistSet k v l) = alistGet? k' l := by
  simp [alistGet?_alistSet, h]

theorem alistGet?_alistErase_ne (k k' : α) (l : List (α × β)) (h : k ≠ k') :
    alistGet? k' (alistErase k l) = alistGet? k' l := by
  induction l with
  | nil => rfl
  | cons p rest ih =>
      obtain ⟨k₀, v₀⟩ := p
      by_cases h0 : k₀ = k
      · subst h0
        rw [alistErase_cons, if_pos rfl, alistGet?_cons, if_neg h]
      · rw [alistErase_cons, if_neg h0, alistGet?_cons, alistGet?_cons, ih]

/-- Keys of an erased association list form a subset of the original keys. -/
theorem mem_keys_alistErase (k : α) (l : List (α × β)) (k' : α)
    (h : k' ∈ (alistErase k l).map Prod.fst) : k' ∈ l.map Prod.fst := by
  induction l with
  | nil => simp [alistErase] at h
  | cons p rest ih =>
      obtain ⟨k₀, v₀⟩ := p
      rw [List.map_cons, List.mem_cons]
      by_cases h0 : k₀ = k
      · subst h0
        rw [alistErase_cons, if_pos rfl] at h
        exact Or.inr h
      · rw [alistErase_cons, if_neg h0, List.map_cons, List.mem_cons] at h
        rcases h with h | h
        · exact Or.inl h
        · exact Or.inr (ih h)

theorem nodup_keys_alistErase (k : α) (l : List (α × β))
    (h : (l.map Prod.fst).Nodup) : ((alistErase k l).map Prod.fst).Nodup := by
  induction l with
  | nil => simp [alistErase]
  | cons p rest ih =>
      obtain ⟨k₀, v₀⟩ := p
      rw [List.map_cons, List.nodup_cons] at h
      by_cases h0 : k₀ = k
      · subst h0
        rw [alistErase_cons, if_pos rfl]
        exact h.2
      · rw [alistErase_cons, if_neg h0, List.map_cons, List.nodup_cons]
        exact ⟨fun hc => h.1 (mem_keys_alistErase k rest k₀ hc), ih h.2⟩

theorem alistGet?_alistErase_self (k : α) (l : List (α × β))
    (h : (l.map Prod.fst).Nodup) : alistGet? k (alistErase k l) = none := by
  induction l with
  | nil => rfl
  | cons p rest ih =>
      obtain ⟨k₀, v₀⟩ := p
      rw [List.map_cons, List.nodup_cons] at h
      by_cases h0 : k₀ = k
      · subst h0
        rw [alistErase_cons, if_pos rfl, alistGet?_eq_none_iff]
        exact h.1
      · rw [alistErase_cons, if_neg h0, alistGet?_cons, if_neg h0]
        exact ih h.2

theorem mem_keys_alistSet (k : α) (v : β) (l : List (α × β)) (k' : α)
    (h : k' ∈ (alistSet k v l).map Prod.fst) : k' ∈ l.map Prod.fst ∨ k' = k := by
  induction l with
  | nil =>
      simp only [alistSet, List.map_cons, List.map_nil, List.mem_singleton] at h
      exact Or.inr h
  | cons p rest ih =>
      obtain ⟨k₀, v₀⟩ := p
      by_cases h0 : k₀ = k
      · subst h0
        rw [alistSet_cons, if_pos rfl, List.map_cons, List.mem_cons] at h
        rcases h with h | h
        · exact Or.inr h
        · exact Or.inl (by rw [List.map_cons, List.mem_cons]; exact Or.inr h)
      · rw [alistSet_cons, if_neg h0, List.map_cons, List.mem_cons] at h
        rw [List.map_cons, List.mem_cons]
        rcases h with h | h
        · exact Or.inl (Or.inl h)
        · rcases ih h with h' | h'
          · exact Or.inl (Or.inr h')
          · exact Or.inr h'

theorem nodup_keys_alistSet (k : α) (v : β) (l : List (α × β))
    (h : (l.map Prod.fst).Nodup) : ((alistSet k v l).map Prod.fst).Nodup := by
  induction l with
  | nil => simp [alistSet]
  | cons p rest ih =>
      obtain ⟨k₀, v₀⟩ := p
      rw [List.map_cons, List.nodup_cons] at h
      by_cases h0 : k₀ = k
      · subst h0
        rw [alistSet_cons, if_pos rfl, List.map_cons, List.nodup_cons]
        exact ⟨h.1, h.2⟩
      · rw [alistSet_cons, if_neg h0, List.map_cons, List.nodup_cons]
        constructor
        · intro hc
          rcases mem_keys_alistSet k v rest k₀ hc with h' | h'
          · exact h.1 h'
          · exact h0 h'
        · exact ih h.2

/-- When the key is already bound, `alistSet` does not change the key list. -/
theorem keys_alistSet_of_mem (k : α) (v : β) (l : List (α × β))
    (h : (alistGet? k l).isSome) :
    (alistSet k v l).map Prod.fst = l.map Prod.fst := by
  induction l with
  | nil => simp [alistGet?] at h
  | cons p rest ih =>
      obtain ⟨k₀, v₀⟩ := p
      by_cases h0 : k₀ = k
      · subst h0
        rw [alistSet_cons, if_pos rfl, List.map_cons, List.map_cons]
      · rw [alistGet?_cons, if_neg h0] at h
        rw [alistSet_cons, if_neg h0, List.map_cons, List.map_cons, ih h]

end AList

/-! ## List sets (embedding of Python `set`) -/

section ListSet

variable {α : Type _} [DecidableEq α]

/-- `s.add(x)` on a Python set, embedded on duplicate-free lists. -/
def setAdd (x : α) (s : List α) : List α := if x ∈ s then s else s ++ [x]

/-- `s.discard(x)` on a Python set. -/
def setDiscard (x : α) (s : List α) : List α := s.filter (fun y => decide (y ≠ x))

@[simp] theorem mem_setAdd (x y : α) (s : List α) :
    y ∈ setAdd x s ↔ y ∈ s ∨ y = x := by
  unfold setAdd
  by_cases h : x ∈ s
  · rw [if_pos h]
    constructor
    · exact Or.inl
    · rintro (h' | rfl)
      · exact h'
      · exact h
  · rw [if_neg h]
    simp

@[simp] theorem mem_setDiscard (x y : α) (s : List α) :
    y ∈ setDiscard x s ↔ y ∈ s ∧ y ≠ x := by
  simp [setDiscard]

theorem nodup_setAdd (x : α) (s : List α) (h : s.Nodup) : (setAdd x s).Nodup := by
  unfold setAdd
  by_cases hx : x ∈ s
  · rwa [if_pos hx]
  · rw [if_neg hx, List.nodup_append]
    refine ⟨h, List.nodup_singleton x, ?_⟩
    intro a ha hax
    rw [List.mem_singleton] at hax
    subst hax
    exact hx ha

theorem nodup_setDiscard (x : α) (s : List α) (h : s.Nodup) :
    (setDiscard x s).Nodup := List.Nodup.filter _ h

theorem setAdd_ne_nil (x : α) (s : List α) : setAdd x s ≠ [] := by
  unfold setAdd
  by_cases hx : x ∈ s
  · rw [if_pos hx]
    intro hc
    rw [hc] at hx
    exact absurd hx (List.not_mem_nil x)
  · rw [if_neg hx]
    simp

theorem setDiscard_eq_nil_mem (x : α) (s : List α) (y : α) (hy : y ∈ s)
    (h : setDiscard x s = []) : y = x := by
  by_contra hne
  have hmem : y ∈ setDiscard x s := by
    rw [mem_setDiscard]
    exact ⟨hy, hne⟩
  rw [h] at hmem
  exact absurd hmem (List.not_mem_nil y)

end ListSet

/-! ## Data model (embedding of `models.py`) -/

/-- Embedding of a Python `datetime.datetime` value (as produced by
`datetime.utcnow()`): a broken-down UTC time. -/
structure Datetime where
  year : Nat
  month : Nat
  day : Nat
  hour : Nat
  minute : Nat
  second : Nat
  microsecond : Nat
deriving DecidableEq, Repr

/-- The ranges enforced by the `datetime.datetime` constructor (the day
bound is relaxed to 31 regardless of month). -/
def Datetime.Valid (t : Datetime) : Prop :=
  1 ≤ t.year ∧ t.year ≤ 9999 ∧ 1 ≤ t.month ∧ t.month ≤ 12 ∧
  1 ≤ t.day ∧ t.day ≤ 31 ∧ t.hour ≤ 23 ∧ t.minute ≤ 59 ∧
  t.second ≤ 59 ∧ t.microsecond ≤ 999999

instance (t : Datetime) : Decidable t.Valid := by
  unfold Datetime.Valid
  infer_instance

/-- Zero-padded two-digit decimal rendering. -/
def pad2 (n : Nat) : List Char := [Nat.digitChar (n / 10), Nat.digitChar (n % 10)]

/-- Zero-padded four-digit decimal rendering. -/
def pad4 (n : Nat) : List Char := pad2 (n / 100) ++ pad2 (n % 100)

/-- Zero-padded six-digit decimal rendering. -/
def pad6 (n : Nat) : List Char := pad2 (n / 10000) ++ pad4 (n % 10000)

/-- The characters of `datetime.isoformat()`: `YYYY-MM-DDTHH:MM:SS` with a
`.ffffff` fraction appended exactly when the microsecond field is nonzero. -/
def isoChars (t : Datetime) : List Char :=
  pad4 t.year ++ '-' :: (pad2 t.month ++ '-' :: (pad2 t.day ++
    'T' :: (pad2 t.hour ++ ':' :: (pad2 t.minute ++ ':' :: (pad2 t.second ++
      (if t.microsecond = 0 then [] else '.' :: pad6 t.microsecond))))))

/-- Embedding of `datetime.isoformat()`, the encoder installed by
`Message.Config.json_encoders`. -/
def Datetime.isoformat (t : Datetime) : String := String.mk (isoChars t)

/-- A decimal digit character, as accepted by the ISO-8601 parser. -/
def digit? (c : Char) : Option Nat :=
  if '0' ≤ c ∧ c ≤ '9' then some (c.toNat - 48) else none

/-- Read exactly two decimal digits. -/
def parse2 : List Char → Option (Nat × List Char)
  | c1 :: c2 :: rest =>
      match digit? c1, digit? c2 with
      | some a, some b => some (a * 10 + b, rest)
      | _, _ => none
  | _ => none

/-- Read exactly four decimal digits. -/
def parse4 (l : List Char) : Option (Nat × List Char) :=
  match parse2 l with
  | some (a, r) =>
      match parse2 r with
      | some (b, r') => some (a * 100 + b, r')
      | none => none
  | none => none

/-- Read exactly six decimal digits. -/
def parse6 (l : List Char) : Option (Nat × List Char) :=
  match parse2 l with
  | some (a, r) =>
      match parse4 r with
      | some (b, r') => some (a * 10000 + b, r')
      | none => none
  | none => none

/-- Expect a literal character. -/
def expectChar (c : Char) : List Char → Option (List Char)
  | c' :: rest => if c' = c then some rest else none
  | [] => none

/-- Embedding of pydantic's ISO-8601 datetime validator as applied to
`Message.timestamp`: parses `YYYY-MM-DDTHH:MM:SS[.ffffff]`. -/
def parseIsoChars (l : List Char) : Option Datetime :=
  match parse4 l with
  | none => none
  | some (y, r) =>
    match expectChar '-' r with
    | none => none
    | some r =>
      match parse2 r with
      | none => none
      | some (mo, r) =>
        match expectChar '-' r with
        | none => none
        | some r =>
          match parse2 r with
          | none => none
          | some (d, r) =>
            match expectChar 'T' r with
            | none => none
            | some r =>
              match parse2 r with
              | none => none
              | some (h, r) =>
                match expectChar ':' r with
                | none => none
                | some r =>
                  match parse2 r with
                  | none => none
                  | some (mi, r) =>
                    match expectChar ':' r with
                    | none => none
                    | some r =>
                      match parse2 r with
                      | none => none
                      | some (sec, r) =>
                        match r with
                        | [] => some ⟨y, mo, d, h, mi, sec, 0⟩
                        | _ :: _ =>
                          match expectChar '.' r with
                          | none => none
                          | some r =>
                            match parse6 r with
                            | some (us, []) => some ⟨y, mo, d, h, mi, sec, us⟩
                            | _ => none

/-- String-level entry point of the timestamp validator. -/
def parseIso (s : String) : Option Datetime := parseIsoChars s.data

/-- Embedding of the `MessageType(str, Enum)` of `models.py`. -/
inductive MessageType
  | chat
  | join
  | leave
  | typing
  | system
deriving DecidableEq, Repr

/-- The wire value of each enum member. -/
def MessageType.toWire : MessageType → String
  | .chat => "chat"
  | .join => "join"
  | .leave => "leave"
  | .typing => "typing"
  | .system => "system"

/-- Pydantic validation of a `message_type` wire string. -/
def MessageType.ofWire (s : String) : Option MessageType :=
  if s = "chat" then some .chat
  else if s = "join" then some .join
  else if s = "leave" then some .leave
  else if s = "typing" then some .typing
  else if s = "system" then some .system
  else none

/-- Embedding of the pydantic `Message` model of `models.py`. -/
structure Message where
  user_id : String
  username : String
  room_id : String
  content : String
  message_type : MessageType
  timestamp : Datetime
deriving DecidableEq, Repr

/-- The flat JSON record produced by `Message.model_dump_json()`, with the
string value of each field.  The JSON object encoding of string fields
(performed by the external `json`/pydantic libraries) is injective, so the
record is embedded structurally rather than as raw JSON text. -/
structure WireMessage where
  user_id : String
  username : String
  room_id : String
  content : String
  message_type : String
  timestamp : String
deriving DecidableEq, Repr

/-- Embedding of `Message.model_dump_json()`: every field serialized, the
enum as its string value, the timestamp via the `isoformat` JSON encoder. -/
def Message.model_dump_wire (m : Message) : WireMessage :=
  ⟨m.user_id, m.username, m.room_id, m.content,
   m.message_type.toWire, m.timestamp.isoformat⟩

/-- Embedding of `Message(**message_data)` on a complete wire record:
pydantic validates the enum string and parses the ISO-8601 timestamp. -/
def decodeWire (w : WireMessage) : Option Message :=
  match MessageType.ofWire w.message_type with
  | none => none
  | some mt =>
    match parseIso w.timestamp with
    | none => none
    | some ts => some ⟨w.user_id, w.username, w.room_id, w.content, mt, ts⟩

/-! ### Round-trip lemmas for the wire encoding -/

theorem digit?_digitChar (d : Nat) (h : d < 10) :
    digit? (Nat.digitChar d) = some d := by
  interval_cases d <;> rfl

theorem parse2_pad2 (n : Nat) (h : n < 100) (rest : List Char) :
    parse2 (pad2 n ++ rest) = some (n, rest) := by
  have h1 : n / 10 < 10 := by omega
  have h2 : n % 10 < 10 := by omega
  simp only [pad2, List.cons_append, List.nil_append, parse2,
    digit?_digitChar _ h1, digit?_digitChar _ h2]
  have e : n / 10 * 10 + n % 10 = n := by omega
  rw [e]

theorem parse4_pad4 (n : Nat) (h : n < 10000) (rest : List Char) :
    parse4 (pad4 n ++ rest) = some (n, rest) := by
  unfold parse4 pad4
  rw [List.append_assoc, parse2_pad2 (n / 100) (by omega)]
  simp only []
  rw [parse2_pad2 (n % 100) (by omega)]
  simp only []
  have e : n / 100 * 100 + n % 100 = n := by omega
  rw [e]

theorem parse6_pad6 (n : Nat) (h : n < 1000000) (rest : List Char) :
    parse6 (pad6 n ++ rest) = some (n, rest) := by
  unfold parse6 pad6
  rw [List.append_assoc, parse2_pad2 (n / 10000) (by omega)]
  simp only []
  rw [parse4_pad4 (n % 10000) (by omega)]
  simp only []
  have e : n / 10000 * 10000 + n % 10000 = n := by omega
  rw [e]

theorem expectChar_cons (c : Char) (rest : List Char) :
    expectChar c (c :: rest) = some rest := by
  simp [expectChar]

/-- Parsing an `isoformat` rendering of a valid datetime recovers it
exactly, including the microsecond field. -/
theorem parseIsoChars_isoChars (t : Datetime) (h : t.Valid) :
    parseIsoChars (isoChars t) = some t := by
  obtain ⟨y, mo, d, hh, mi, s, us⟩ := t
  obtain ⟨hy1, hy2, hmo1, hmo2, hd1, hd2, hhh, hmi, hs, hus⟩ := h
  simp only at hy1 hy2 hmo1 hmo2 hd1 hd2 hhh hmi hs hus
  by_cases hus0 : us = 0
  · subst hus0
    unfold isoChars parseIsoChars
    simp only [reduceIte]
    rw [parse4_pad4 y (by omega)]
    simp only []
    rw [expectChar_cons]
    simp only []
    rw [parse2_pad2 mo (by omega)]
    simp only []
    rw [expectChar_cons]
    simp only []
    rw [parse2_pad2 d (by omega)]
    simp only []
    rw [expectChar_cons]
    simp only []
    rw [parse2_pad2 hh (by omega)]
    simp only []
    rw [expectChar_cons]
    simp only []
    rw [parse2_pad2 mi (by omega)]
    simp only []
    rw [expectChar_cons]
    simp only []
    rw [parse2_pad2 s (by omega)]
  · unfold isoChars parseIsoChars
    simp only [if_neg hus0]
    rw [parse4_pad4 y (by omega)]
    simp only []
    rw [expectChar_cons]
    simp only []
    rw [parse2_pad2 mo (by omega)]
    simp only []
    rw [expectChar_cons]
    simp only []
    rw [parse2_pad2 d (by omega)]
    simp only []
    rw [expectChar_cons]
    simp only []
    rw [parse2_pad2 hh (by omega)]
    simp only []
    rw [expectChar_cons]
    simp only []
    rw [parse2_pad2 mi (by omega)]
    simp only []
    rw [expectChar_cons]
    simp only []
    rw [parse2_pad2 s (by omega)]
    simp only []
    rw [expectChar_cons]
    simp only []
    have h6 : parse6 (pad6 us) = some (us, []) := by
      have := parse6_pad6 us (by omega) []
      rwa [List.append_nil] at this
    rw [h6]

theorem parseIso_isoformat (t : Datetime) (h : t.Valid) :
    parseIso t.isoformat = some t :=
  parseIsoChars_isoChars t h

theorem ofWire_toWire (mt : MessageType) :
    MessageType.ofWire mt.toWire = some mt := by
  cases mt <;> rfl

/-- Embedding of the pydantic `User` model of `models.py`. -/
structure User where
  id : String
  username : String
  current_room : Option String := none
deriving DecidableEq, Repr

/-! ## Connection registry (embedding of `connection_manager.py`) -/

/-- The state of a `ConnectionManager`: `active_connections` maps room id to
the set of WebSocket connections (opaque handles embedded as `Nat`),
`user_sessions` maps connection to `User`, `room_members` maps room id to
the set of user ids. -/
structure ConnectionManager where
  active_connections : List (String × List Nat)
  user_sessions : List (Nat × User)
  room_members : List (String × List String)
deriving DecidableEq, Repr

namespace ConnectionManager

/-- `ConnectionManager.__init__`: all three maps empty. -/
def empty : ConnectionManager := ⟨[], [], []⟩

/-- Embedding of `ConnectionManager.connect` (the `websocket.accept()` call
is transport-level and has no registry effect).  Initializes the room's
entries when `room_id` is not yet in `active_connections`, adds the
connection and the user id, stores the session with `current_room` set.
The result is `none` when the Python code would raise a `KeyError`
(`room_id` in `active_connections` but not in `room_members`); no resulting
state is modelled for that case, which aborts the caller. -/
def connect (cm : ConnectionManager) (websocket : Nat) (user : User)
    (room_id : String) : Option ConnectionManager :=
  let ac1 :=
    if (alistGet? room_id cm.active_connections).isNone then
      alistSet room_id [] cm.active_connections
    else cm.active_connections
  let rm1 :=
    if (alistGet? room_id cm.active_connections).isNone then
      alistSet room_id [] cm.room_members
    else cm.room_members
  match alistGet? room_id ac1, alistGet? room_id rm1 with
  | some conns, some mems =>
      let user' := { user with current_room := some room_id }
      some { active_connections := alistSet room_id (setAdd websocket conns) ac1,
             user_sessions := alistSet websocket user' cm.user_sessions,
             room_members := alistSet room_id (setAdd user.id mems) rm1 }
  | _, _ => none

/-- Embedding of `ConnectionManager.disconnect`.  A no-op when the
connection has no session.  The `if room_id and room_id in
self.active_connections` guard is embedded faithfully, including Python's
falsiness of `None` and of the empty string.  The result is `none` when the
Python code would raise a `KeyError` (`room_id` in `active_connections` but
not in `room_members`). -/
def disconnect (cm : ConnectionManager) (websocket : Nat) :
    Option ConnectionManager :=
  match alistGet? websocket cm.user_sessions with
  | none => some cm
  | some user =>
    match user.current_room with
    | none => some { cm with user_sessions := alistErase websocket cm.user_sessions }
    | some room_id =>
      if room_id = "" then
        some { cm with user_sessions := alistErase websocket cm.user_sessions }
      else
        match alistGet? room_id cm.active_connections with
        | none =>
            some { cm with user_sessions := alistErase websocket cm.user_sessions }
        | some conns =>
          match alistGet? room_id cm.room_members with
          | none => none
          | some mems =>
            let conns' := setDiscard websocket conns
            if conns' = [] then
              some { active_connections := alistErase room_id cm.active_connections,
                     user_sessions := alistErase websocket cm.user_sessions,
                     room_members := alistErase room_id cm.room_members }
            else
              some { active_connections := alistSet room_id conns' cm.active_connections,
                     user_sessions := alistErase websocket cm.user_sessions,
                     room_members :=
                       alistSet room_id (setDiscard user.id mems) cm.room_members }

/-- Sequential `disconnect` of each connection in the list, as performed by
the cleanup sweep of `broadcast_to_room`. -/
def disconnectAll (cm : ConnectionManager) : List Nat → Option ConnectionManager
  | [] => some cm
  | ws :: rest =>
    match disconnect cm ws with
    | none => none
    | some cm' => disconnectAll cm' rest

/-- The outcome of `broadcast_to_room`: the resulting registry state, the
list of `(connection, payload)` deliveries that succeeded, and whether the
non-existent-room warning was logged. -/
structure BroadcastResult where
  state : ConnectionManager
  delivered : List (Nat × WireMessage)
  warned : Bool
deriving DecidableEq, Repr

/-- Embedding of `ConnectionManager.broadcast_to_room`.  `fails` is the
fault model: the set of connections whose `send_text` raises.  An unknown
room logs a warning and returns with no state change.  Otherwise the
message is serialized once and sent to every connection of the room;
failing connections are collected and passed to `disconnect` after the
sweep. -/
def broadcast_to_room (cm : ConnectionManager) (room_id : String)
    (message : Message) (fails : List Nat) : Option BroadcastResult :=
  match alistGet? room_id cm.active_connections with
  | none => some ⟨cm, [], true⟩
  | some conns =>
    let message_json := message.model_dump_wire
    let delivered :=
      (conns.filter (fun c => decide (c ∉ fails))).map (fun c => (c, message_json))
    let disconnected := conns.filter (fun c => decide (c ∈ fails))
    match disconnectAll cm disconnected with
    | none => none
    | some cm' => some ⟨cm', delivered, false⟩

/-- Embedding of `ConnectionManager.get_room_member_count`:
`len(self.room_members.get(room_id, set()))`. -/
def get_room_member_count (cm : ConnectionManager) (room_id : String) : Nat :=
  ((alistGet? room_id cm.room_members).getD []).length

/-- Embedding of `ConnectionManager.get_user_info`:
`self.user_sessions.get(websocket)`. -/
def get_user_info (cm : ConnectionManager) (websocket : Nat) : Option User :=
  alistGet? websocket cm.user_sessions

/-- Embedding of `ConnectionManager.get_all_rooms`. -/
def get_all_rooms (cm : ConnectionManager) : List (String × Nat) :=
  cm.room_members.map (fun p => (p.1, p.2.length))

/-! ### Registry invariants -/

/-- Structural invariant of every reachable registry state: key lists are
duplicate-free, `active_connections` and `room_members` share their room
keys, connection sets are duplicate-free and never empty, every connection
of a room has a session pointing back at that room, and every session
points at a nonempty room id whose connection set holds the connection. -/
structure Inv (cm : ConnectionManager) : Prop where
  acKeysNodup : (cm.active_connections.map Prod.fst).Nodup
  rmKeysNodup : (cm.room_members.map Prod.fst).Nodup
  usKeysNodup : (cm.user_sessions.map Prod.fst).Nodup
  keysEq : ∀ r : String, (alistGet? r cm.active_connections).isSome ↔
    (alistGet? r cm.room_members).isSome
  connsNodup : ∀ r conns, alistGet? r cm.active_connections = some conns →
    conns.Nodup
  memsNodup : ∀ r mems, alistGet? r cm.room_members = some mems → mems.Nodup
  connsNE : ∀ r conns, alistGet? r cm.active_connections = some conns →
    conns ≠ []
  back : ∀ r conns ws, alistGet? r cm.active_connections = some conns →
    ws ∈ conns → ∃ u, alistGet? ws cm.user_sessions = some u ∧
      u.current_room = some r
  forward : ∀ ws u, alistGet? ws cm.user_sessions = some u →
    ∃ r conns, u.current_room = some r ∧ r ≠ "" ∧
      alistGet? r cm.active_connections = some conns ∧ ws ∈ conns

/-- Extended invariant: distinct sessions carry distinct user ids, and each
room's member-id set is exactly the set of user ids of the sessions of the
room's connections.  It holds on every state reachable by connects with
pairwise-distinct user ids. -/
structure InvX (cm : ConnectionManager) extends Inv cm : Prop where
  uidInj : ∀ ws₁ u₁ ws₂ u₂, alistGet? ws₁ cm.user_sessions = some u₁ →
    alistGet? ws₂ cm.user_sessions = some u₂ → u₁.id = u₂.id → ws₁ = ws₂
  memExact : ∀ r mems, alistGet? r cm.room_members = some mems →
    ∀ uid, uid ∈ mems ↔ ∃ conns ws u,
      alistGet? r cm.active_connections = some conns ∧ ws ∈ conns ∧
      alistGet? ws cm.user_sessions = some u ∧ u.id = uid

theorem inv_empty : Inv empty := by
  refine ⟨?_, ?_, ?_, ?_, ?_, ?_, ?_, ?_, ?_⟩ <;> intros <;> simp_all [empty]

theorem invX_empty : InvX empty := by
  refine ⟨inv_empty, ?_, ?_⟩ <;> intros <;> simp_all [empty]

/-- A connection of some room's connection set is a connection of no other
room: its session's `current_room` pins the room. -/
theorem Inv.room_unique (hinv : Inv cm) (ws : Nat) (u : User) (room r : String)
    (conns : List Nat) (hsess : alistGet? ws cm.user_sessions = some u)
    (hcr : u.current_room = some room)
    (hr : alistGet? r cm.active_connections = some conns) (hw : ws ∈ conns) :
    r = room := by
  obtain ⟨u₀, hu₀, hcr₀⟩ := hinv.back r conns ws hr hw
  rw [hsess] at hu₀
  cases hu₀
  rw [hcr₀] at hcr
  exact (Option.some.injEq _ _).mp hcr

/-! ### Normal forms of `connect` and `disconnect` -/

theorem alistSet_alistSet {α β : Type _} [DecidableEq α] (k : α) (v w : β)
    (l : List (α × β)) : alistSet k v (alistSet k w l) = alistSet k v l := by
  induction l with
  | nil => simp [alistSet]
  | cons p rest ih =>
      obtain ⟨k₀, v₀⟩ := p
      by_cases h0 : k₀ = k
      · subst h0
        rw [alistSet_cons, if_pos rfl, alistSet_cons, if_pos rfl,
          alistSet_cons, if_pos rfl]
      · rw [alistSet_cons, if_neg h0, alistSet_cons, if_neg h0,
          alistSet_cons, if_neg h0, ih]

/-- `connect` never raises when the room keys of the two room maps agree,
and its result overwrites the room's sets and the session in one step. -/
theorem connect_eq (cm : ConnectionManager) (ws : Nat) (user : User)
    (room : String)
    (hks : (alistGet? room cm.active_connections).isSome ↔
      (alistGet? room cm.room_members).isSome) :
    cm.connect ws user room = some
      { active_connections :=
          alistSet room
            (setAdd ws ((alistGet? room cm.active_connections).getD []))
            cm.active_connections,
        user_sessions :=
          alistSet ws { user with current_room := some room } cm.user_sessions,
        room_members :=
          alistSet room
            (setAdd user.id ((alistGet? room cm.room_members).getD []))
            cm.room_members } := by
  cases hac : alistGet? room cm.active_connections with
  | none =>
      have hrm : alistGet? room cm.room_members = none := by
        cases hrm' : alistGet? room cm.room_members with
        | none => rfl
        | some v =>
            rw [hac, hrm'] at hks
            simp at hks
      simp [connect, hac, hrm, alistSet_alistSet]
  | some conns =>
      have hsome : (alistGet? room cm.room_members).isSome := by
        rw [← hks, hac]
        rfl
      cases hrm : alistGet? room cm.room_members with
      | none => rw [hrm] at hsome; simp at hsome
      | some mems => simp [connect, hac, hrm]

/-- Under the invariant, `disconnect` of a live connection removes it from
its room (dropping the room entirely when it empties) and removes its
session. -/
theorem disconnect_eq_of_mem (cm : ConnectionManager) (ws : Nat) (u : User)
    (hinv : Inv cm) (hsess : alistGet? ws cm.user_sessions = some u) :
    ∃ room conns mems, u.current_room = some room ∧ room ≠ "" ∧
      alistGet? room cm.active_connections = some conns ∧
      alistGet? room cm.room_members = some mems ∧ ws ∈ conns ∧
      cm.disconnect ws = some
        (if setDiscard ws conns = [] then
          { active_connections := alistErase room cm.active_connections,
            user_sessions := alistErase ws cm.user_sessions,
            room_members := alistErase room cm.room_members }
        else
          { active_connections :=
              alistSet room (setDiscard ws conns) cm.active_connections,
            user_sessions := alistErase ws cm.user_sessions,
            room_members :=
              alistSet room (setDiscard u.id mems) cm.room_members }) := by
  obtain ⟨room, conns, hcr, hroom, hac, hws⟩ := hinv.forward ws u hsess
  have hrmS : (alistGet? room cm.room_members).isSome := by
    rw [← hinv.keysEq room, hac]
    rfl
  cases hrm : alistGet? room cm.room_members with
  | none => rw [hrm] at hrmS; simp at hrmS
  | some mems =>
      refine ⟨room, conns, mems, hcr, hroom, hac, hrm, hws, ?_⟩
      by_cases hnil : setDiscard ws conns = []
      · rw [if_pos hnil]
        simp [disconnect, hsess, hcr, hroom, hac, hrm, hnil]
      · rw [if_neg hnil]
        simp [disconnect, hsess, hcr, hroom, hac, hrm, hnil]

/-! ### Preservation of the invariants -/

/-- `connect` with a fresh handle and a nonempty room id succeeds and
preserves the invariant. -/
theorem connect_inv (cm : ConnectionManager) (ws : Nat) (user : User)
    (room : String) (hinv : Inv cm)
    (hfresh : alistGet? ws cm.user_sessions = none) (hroom : room ≠ "") :
    ∃ cm', cm.connect ws user room = some cm' ∧ Inv cm' := by
  rw [connect_eq cm ws user room (hinv.keysEq room)]
  refine ⟨_, rfl, ?_⟩
  have hc₀nodup : ((alistGet? room cm.active_connections).getD []).Nodup := by
    cases hac : alistGet? room cm.active_connections with
    | none => simp
    | some c => simpa using hinv.connsNodup room c hac
  have hm₀nodup : ((alistGet? room cm.room_members).getD []).Nodup := by
    cases hrm : alistGet? room cm.room_members with
    | none => simp
    | some m => simpa using hinv.memsNodup room m hrm
  have hc₀back : ∀ w, w ∈ (alistGet? room cm.active_connections).getD [] →
      ∃ u₀, alistGet? w cm.user_sessions = some u₀ ∧
        u₀.current_room = some room := by
    cases hac : alistGet? room cm.active_connections with
    | none => simp
    | some c =>
        intro w hw
        exact hinv.back room c w hac (by simpa using hw)
  refine ⟨?_, ?_, ?_, ?_, ?_, ?_, ?_, ?_, ?_⟩
  · exact nodup_keys_alistSet _ _ _ hinv.acKeysNodup
  · exact nodup_keys_alistSet _ _ _ hinv.rmKeysNodup
  · exact nodup_keys_alistSet _ _ _ hinv.usKeysNodup
  · intro r
    rw [alistGet?_alistSet, alistGet?_alistSet]
    by_cases hr : room = r
    · simp [hr]
    · rw [if_neg hr, if_neg hr]
      exact hinv.keysEq r
  · intro r c h
    rw [alistGet?_alistSet] at h
    by_cases hr : room = r
    · rw [if_pos hr] at h
      cases h
      exact nodup_setAdd _ _ hc₀nodup
    · rw [if_neg hr] at h
      exact hinv.connsNodup r c h
  · intro r m h
    rw [alistGet?_alistSet] at h
    by_cases hr : room = r
    · rw [if_pos hr] at h
      cases h
      exact nodup_setAdd _ _ hm₀nodup
    · rw [if_neg hr] at h
      exact hinv.memsNodup r m h
  · intro r c h
    rw [alistGet?_alistSet] at h
    by_cases hr : room = r
    · rw [if_pos hr] at h
      cases h
      exact setAdd_ne_nil _ _
    · rw [if_neg hr] at h
      exact hinv.connsNE r c h
  · intro r c w h hw
    rw [alistGet?_alistSet] at h
    by_cases hr : room = r
    · subst hr
      rw [if_pos rfl] at h
      cases h
      rcases (mem_setAdd ws w _).mp hw with hw' | hw'
      · obtain ⟨u₀, hu₀, hcr₀⟩ := hc₀back w hw'
        have hne : ws ≠ w := by
          intro he
          rw [← he, hfresh] at hu₀
          exact Option.noConfusion hu₀
        refine ⟨u₀, ?_, hcr₀⟩
        rw [alistGet?_alistSet_ne _ _ _ _ hne]
        exact hu₀
      · subst hw'
        refine ⟨{ user with current_room := some room }, ?_, rfl⟩
        rw [alistGet?_alistSet_self]
    · rw [if_neg hr] at h
      obtain ⟨u₀, hu₀, hcr₀⟩ := hinv.back r c w h hw
      have hne : ws ≠ w := by
        intro he
        rw [← he, hfresh] at hu₀
        exact Option.noConfusion hu₀
      refine ⟨u₀, ?_, hcr₀⟩
      rw [alistGet?_alistSet_ne _ _ _ _ hne]
      exact hu₀
  · intro w u h
    rw [alistGet?_alistSet] at h
    by_cases hw : ws = w
    · rw [if_pos hw] at h
      cases h
      refine ⟨room, setAdd ws ((alistGet? room cm.active_connections).getD []),
        rfl, hroom, ?_, ?_⟩
      · rw [alistGet?_alistSet_self]
      · subst hw
        exact (mem_setAdd _ _ _).mpr (Or.inr rfl)
    · rw [if_neg hw] at h
      obtain ⟨r₀, c₀, hcr₀, hr₀ne, hget₀, hmem₀⟩ := hinv.forward w u h
      by_cases hr : room = r₀
      · subst hr
        refine ⟨room, setAdd ws ((alistGet? room cm.active_connections).getD []),
          hcr₀, hr₀ne, ?_, ?_⟩
        · rw [alistGet?_alistSet_self]
        · have : (alistGet? room cm.active_connections).getD [] = c₀ := by
            rw [hget₀]
            rfl
          rw [this]
          exact (mem_setAdd _ _ _).mpr (Or.inl hmem₀)
      · refine ⟨r₀, c₀, hcr₀, hr₀ne, ?_, hmem₀⟩
        rw [alistGet?_alistSet, if_neg hr]
        exact hget₀

/-- `disconnect` never raises under the invariant, and preserves it. -/
theorem disconnect_inv (cm : ConnectionManager) (ws : Nat) (hinv : Inv cm) :
    ∃ cm', cm.disconnect ws = some cm' ∧ Inv cm' := by
  cases hsess : alistGet? ws cm.user_sessions with
  | none => exact ⟨cm, by simp [disconnect, hsess], hinv⟩
  | some u =>
      obtain ⟨room, conns, mems, hcr, hroom, hac, hrm, hws, heq⟩ :=
        disconnect_eq_of_mem cm ws u hinv hsess
      rw [heq]
      refine ⟨_, rfl, ?_⟩
      have hsess_sub : ∀ w u₀,
          alistGet? w (alistErase ws cm.user_sessions) = some u₀ →
          ws ≠ w ∧ alistGet? w cm.user_sessions = some u₀ := by
        intro w u₀ h
        by_cases hw : ws = w
        · subst hw
          rw [alistGet?_alistErase_self _ _ hinv.usKeysNodup] at h
          exact Option.noConfusion h
        · rw [alistGet?_alistErase_ne _ _ _ hw] at h
          exact ⟨hw, h⟩
      have hother : ∀ r c w, r ≠ room →
          alistGet? r cm.active_connections = some c → w ∈ c → ws ≠ w := by
        intro r c w hr hc hw he
        subst he
        exact hr (hinv.room_unique ws u room r c hsess hcr hc hw)
      by_cases hnil : setDiscard ws conns = []
      · rw [if_pos hnil]
        refine ⟨?_, ?_, ?_, ?_, ?_, ?_, ?_, ?_, ?_⟩
        · exact nodup_keys_alistErase _ _ hinv.acKeysNodup
        · exact nodup_keys_alistErase _ _ hinv.rmKeysNodup
        · exact nodup_keys_alistErase _ _ hinv.usKeysNodup
        · intro r
          by_cases hr : room = r
          · subst hr
            rw [alistGet?_alistErase_self _ _ hinv.acKeysNodup,
              alistGet?_alistErase_self _ _ hinv.rmKeysNodup]
            exact Iff.rfl
          · rw [alistGet?_alistErase_ne _ _ _ hr, alistGet?_alistErase_ne _ _ _ hr]
            exact hinv.keysEq r
        · intro r c h
          by_cases hr : room = r
          · subst hr
            rw [alistGet?_alistErase_self _ _ hinv.acKeysNodup] at h
            exact Option.noConfusion h
          · rw [alistGet?_alistErase_ne _ _ _ hr] at h
            exact hinv.connsNodup r c h
        · intro r m h
          by_cases hr : room = r
          · subst hr
            rw [alistGet?_alistErase_self _ _ hinv.rmKeysNodup] at h
            exact Option.noConfusion h
          · rw [alistGet?_alistErase_ne _ _ _ hr] at h
            exact hinv.memsNodup r m h
        · intro r c h
          by_cases hr : room = r
          · subst hr
            rw [alistGet?_alistErase_self _ _ hinv.acKeysNodup] at h
            exact Option.noConfusion h
          · rw [alistGet?_alistErase_ne _ _ _ hr] at h
            exact hinv.connsNE r c h
        · intro r c w h hw
          by_cases hr : room = r
          · subst hr
            rw [alistGet?_alistErase_self _ _ hinv.acKeysNodup] at h
            exact Option.noConfusion h
          · rw [alistGet?_alistErase_ne _ _ _ hr] at h
            obtain ⟨u₀, hu₀, hcr₀⟩ := hinv.back r c w h hw
            have hne : ws ≠ w := hother r c w (fun he => hr he.symm) h hw
            refine ⟨u₀, ?_, hcr₀⟩
            rw [alistGet?_alistErase_ne _ _ _ hne]
            exact hu₀
        · intro w u₀ h
          obtain ⟨hne, h'⟩ := hsess_sub w u₀ h
          obtain ⟨r₀, c₀, hcr₀, hne₀, hget₀, hmem₀⟩ := hinv.forward w u₀ h'
          by_cases hr : r₀ = room
          · have hceq : c₀ = conns := by
              rw [hr] at hget₀
              rw [hget₀] at hac
              exact (Option.some.injEq _ _).mp hac
            exfalso
            have hmem' : w ∈ setDiscard ws conns := by
              rw [mem_setDiscard]
              exact ⟨hceq ▸ hmem₀, fun he => hne he.symm⟩
            rw [hnil] at hmem'
            exact absurd hmem' (List.not_mem_nil w)
          · refine ⟨r₀, c₀, hcr₀, hne₀, ?_, hmem₀⟩
            rw [alistGet?_alistErase_ne _ _ _ (fun he => hr he.symm)]
            exact hget₀
      · rw [if_neg hnil]
        refine ⟨?_, ?_, ?_, ?_, ?_, ?_, ?_, ?_, ?_⟩
        · exact nodup_keys_alistSet _ _ _ hinv.acKeysNodup
        · exact nodup_keys_alistSet _ _ _ hinv.rmKeysNodup
        · exact nodup_keys_alistErase _ _ hinv.usKeysNodup
        · intro r
          rw [alistGet?_alistSet, alistGet?_alistSet]
          by_cases hr : room = r
          · simp [hr]
          · rw [if_neg hr, if_neg hr]
            exact hinv.keysEq r
        · intro r c h
          rw [alistGet?_alistSet] at h
          by_cases hr : room = r
          · rw [if_pos hr] at h
            cases h
            exact nodup_setDiscard _ _ (hinv.connsNodup room conns hac)
          · rw [if_neg hr] at h
            exact hinv.connsNodup r c h
        · intro r m h
          rw [alistGet?_alistSet] at h
          by_cases hr : room = r
          · rw [if_pos hr] at h
            cases h
            exact nodup_setDiscard _ _ (hinv.memsNodup room mems hrm)
          · rw [if_neg hr] at h
            exact hinv.memsNodup r m h
        · intro r c h
          rw [alistGet?_alistSet] at h
          by_cases hr : room = r
          · rw [if_pos hr] at h
            cases h
            exact hnil
          · rw [if_neg hr] at h
            exact hinv.connsNE r c h
        · intro r c w h hw
          rw [alistGet?_alistSet] at h
          by_cases hr : room = r
          · rw [if_pos hr] at h
            cases h
            rw [mem_setDiscard] at hw
            obtain ⟨hwc, hwne⟩ := hw
            obtain ⟨u₀, hu₀, hcr₀⟩ := hinv.back room conns w hac hwc
            refine ⟨u₀, ?_, hr ▸ hcr₀⟩
            rw [alistGet?_alistErase_ne _ _ _ (fun he => hwne he.symm)]
            exact hu₀
          · rw [if_neg hr] at h
            obtain ⟨u₀, hu₀, hcr₀⟩ := hinv.back r c w h hw
            have hne : ws ≠ w := hother r c w (fun he => hr he.symm) h hw
            refine ⟨u₀, ?_, hcr₀⟩
            rw [alistGet?_alistErase_ne _ _ _ hne]
            exact hu₀
        · intro w u₀ h
          obtain ⟨hne, h'⟩ := hsess_sub w u₀ h
          obtain ⟨r₀, c₀, hcr₀, hne₀, hget₀, hmem₀⟩ := hinv.forward w u₀ h'
          by_cases hr : r₀ = room
          · have hceq : c₀ = conns := by
              rw [hr] at hget₀
              rw [hget₀] at hac
              exact (Option.some.injEq _ _).mp hac
            refine ⟨room, setDiscard ws conns, hr ▸ hcr₀, hroom, ?_, ?_⟩
            · rw [alistGet?_alistSet_self]
            · rw [mem_setDiscard]
              exact ⟨hceq ▸ hmem₀, fun he => hne he.symm⟩
          · refine ⟨r₀, c₀, hcr₀, hne₀, ?_, hmem₀⟩
            rw [alistGet?_alistSet, if_neg (fun he => hr he.symm)]
            exact hget₀

/-- `connect` with a fresh handle, a fresh user id and a nonempty room id
preserves the extended invariant. -/
theorem connect_invX (cm : ConnectionManager) (ws : Nat) (user : User)
    (room : String) (hinv : InvX cm)
    (hfresh : alistGet? ws cm.user_sessions = none)
    (huid : ∀ w u₀, alistGet? w cm.user_sessions = some u₀ → u₀.id ≠ user.id)
    (hroom : room ≠ "") :
    ∃ cm', cm.connect ws user room = some cm' ∧ InvX cm' := by
  obtain ⟨cm', heq, hinv'⟩ := connect_inv cm ws user room hinv.toInv hfresh hroom
  rw [connect_eq cm ws user room (hinv.keysEq room)] at heq
  rw [connect_eq cm ws user room (hinv.keysEq room)]
  cases heq
  refine ⟨_, rfl, hinv', ?_, ?_⟩
  · intro ws₁ u₁ ws₂ u₂ h₁ h₂ hid
    rw [alistGet?_alistSet] at h₁ h₂
    by_cases e₁ : ws = ws₁
    · rw [if_pos e₁] at h₁
      cases h₁
      by_cases e₂ : ws = ws₂
      · rw [← e₁, ← e₂]
      · rw [if_neg e₂] at h₂
        exact absurd hid.symm (huid ws₂ u₂ h₂)
    · rw [if_neg e₁] at h₁
      by_cases e₂ : ws = ws₂
      · rw [if_pos e₂] at h₂
        cases h₂
        exact absurd hid (huid ws₁ u₁ h₁)
      · rw [if_neg e₂] at h₂
        exact hinv.uidInj ws₁ u₁ ws₂ u₂ h₁ h₂ hid
  · intro r mems h uid
    rw [alistGet?_alistSet] at h
    have hc₀back : ∀ w, w ∈ (alistGet? room cm.active_connections).getD [] →
        ∃ u₀, alistGet? w cm.user_sessions = some u₀ ∧
          u₀.current_room = some room := by
      cases hac : alistGet? room cm.active_connections with
      | none => simp
      | some c =>
          intro w hw
          exact hinv.back room c w hac (by simpa using hw)
    by_cases hr : room = r
    · rw [if_pos hr] at h
      cases h
      subst hr
      constructor
      · intro hmem
        rcases (mem_setAdd _ _ _).mp hmem with hmem' | hmem'
        · cases hrm : alistGet? room cm.room_members with
          | none =>
              rw [hrm] at hmem'
              exact absurd hmem' (List.not_mem_nil uid)
          | some m =>
              rw [hrm] at hmem'
              simp only [Option.getD_some] at hmem'
              obtain ⟨c, w, u₀, hc, hw, hu₀, hid⟩ :=
                ((hinv.memExact room m hrm uid).mp hmem')
              have hne : ws ≠ w := by
                intro he
                rw [← he, hfresh] at hu₀
                exact Option.noConfusion hu₀
              refine ⟨setAdd ws ((alistGet? room cm.active_connections).getD []),
                w, u₀, ?_, ?_, ?_, hid⟩
              · rw [alistGet?_alistSet_self]
              · rw [hc]
                simp only [Option.getD_some]
                exact (mem_setAdd _ _ _).mpr (Or.inl hw)
              · rw [alistGet?_alistSet_ne _ _ _ _ hne]
                exact hu₀
        · refine ⟨setAdd ws ((alistGet? room cm.active_connections).getD []),
            ws, { user with current_room := some room }, ?_, ?_, ?_, ?_⟩
          · rw [alistGet?_alistSet_self]
          · exact (mem_setAdd _ _ _).mpr (Or.inr rfl)
          · rw [alistGet?_alistSet_self]
          · exact hmem'.symm
      · rintro ⟨c, w, u₀, hc, hw, hu₀, hid⟩
        rw [alistGet?_alistSet_self] at hc
        cases hc
        rcases (mem_setAdd _ _ _).mp hw with hw' | hw'
        · have hne : ws ≠ w := by
            intro he
            obtain ⟨u₁, hu₁, _⟩ := hc₀back w hw'
            rw [← he, hfresh] at hu₁
            exact Option.noConfusion hu₁
          rw [alistGet?_alistSet_ne _ _ _ _ hne] at hu₀
          cases hac : alistGet? room cm.active_connections with
          | none =>
              rw [hac] at hw'
              exact absurd hw' (List.not_mem_nil w)
          | some c' =>
              have hrmS : (alistGet? room cm.room_members).isSome := by
                rw [← hinv.keysEq room, hac]
                rfl
              cases hrm : alistGet? room cm.room_members with
              | none => rw [hrm] at hrmS; exact absurd hrmS (by simp)
              | some m =>
                  have : uid ∈ m := by
                    refine (hinv.memExact room m hrm uid).mpr
                      ⟨c', w, u₀, hac, ?_, hu₀, hid⟩
                    rw [hac] at hw'
                    simpa using hw'
                  simp only [Option.getD_some]
                  exact (mem_setAdd _ _ _).mpr (Or.inl this)
        · subst hw'
          rw [alistGet?_alistSet_self] at hu₀
          cases hu₀
          rw [← hid]
          exact (mem_setAdd _ _ _).mpr (Or.inr rfl)
    · rw [if_neg hr] at h
      constructor
      · intro hmem
        obtain ⟨c, w, u₀, hc, hw, hu₀, hid⟩ :=
          ((hinv.memExact r mems h uid).mp hmem)
        have hne : ws ≠ w := by
          intro he
          rw [← he, hfresh] at hu₀
          exact Option.noConfusion hu₀
        refine ⟨c, w, u₀, ?_, hw, ?_, hid⟩
        · rw [alistGet?_alistSet, if_neg hr]
          exact hc
        · rw [alistGet?_alistSet_ne _ _ _ _ hne]
          exact hu₀
      · rintro ⟨c, w, u₀, hc, hw, hu₀, hid⟩
        rw [alistGet?_alistSet, if_neg hr] at hc
        have hne : ws ≠ w := by
          intro he
          obtain ⟨u₁, hu₁, _⟩ := hinv.back r c w hc hw
          rw [← he, hfresh] at hu₁
          exact Option.noConfusion hu₁
        rw [alistGet?_alistSet_ne _ _ _ _ hne] at hu₀
        exact (hinv.memExact r mems h uid).mpr ⟨c, w, u₀, hc, hw, hu₀, hid⟩

/-- `disconnect` preserves the extended invariant. -/
theorem disconnect_invX (cm : ConnectionManager) (ws : Nat) (hinv : InvX cm) :
    ∃ cm', cm.disconnect ws = some cm' ∧ InvX cm' := by
  cases hsess : alistGet? ws cm.user_sessions with
  | none => exact ⟨cm, by simp [disconnect, hsess], hinv⟩
  | some u =>
      obtain ⟨room, conns, mems, hcr, hroom, hac, hrm, hws, heq⟩ :=
        disconnect_eq_of_mem cm ws u hinv.toInv hsess
      obtain ⟨cm', heq', hbase⟩ := disconnect_inv cm ws hinv.toInv
      rw [heq] at heq'
      cases heq'
      rw [heq]
      have hsub : ∀ w u₀,
          alistGet? w (alistErase ws cm.user_sessions) = some u₀ →
          ws ≠ w ∧ alistGet? w cm.user_sessions = some u₀ := by
        intro w u₀ h
        by_cases hw : ws = w
        · subst hw
          rw [alistGet?_alistErase_self _ _ hinv.usKeysNodup] at h
          exact Option.noConfusion h
        · rw [alistGet?_alistErase_ne _ _ _ hw] at h
          exact ⟨hw, h⟩
      have hother : ∀ r c w, r ≠ room →
          alistGet? r cm.active_connections = some c → w ∈ c → ws ≠ w := by
        intro r c w hr hc hw he
        subst he
        exact hr (hinv.room_unique ws u room r c hsess hcr hc hw)
      have huidInj : ∀ ws₁ u₁ ws₂ u₂,
          alistGet? ws₁ (alistErase ws cm.user_sessions) = some u₁ →
          alistGet? ws₂ (alistErase ws cm.user_sessions) = some u₂ →
          u₁.id = u₂.id → ws₁ = ws₂ := by
        intro ws₁ u₁ ws₂ u₂ h₁ h₂ hid
        exact hinv.uidInj ws₁ u₁ ws₂ u₂ (hsub ws₁ u₁ h₁).2 (hsub ws₂ u₂ h₂).2 hid
      by_cases hnil : setDiscard ws conns = []
      · rw [if_pos hnil]
        rw [if_pos hnil] at hbase
        refine ⟨_, rfl, hbase, huidInj, ?_⟩
        intro r mems' h uid
        by_cases hr : room = r
        · subst hr
          rw [alistGet?_alistErase_self _ _ hinv.rmKeysNodup] at h
          exact Option.noConfusion h
        · rw [alistGet?_alistErase_ne _ _ _ hr] at h
          constructor
          · intro hmem
            obtain ⟨c, w, u₀, hc, hw, hu₀, hid⟩ :=
              (hinv.memExact r mems' h uid).mp hmem
            have hne : ws ≠ w := hother r c w (fun he => hr he.symm) hc hw
            refine ⟨c, w, u₀, ?_, hw, ?_, hid⟩
            · rw [alistGet?_alistErase_ne _ _ _ hr]
              exact hc
            · rw [alistGet?_alistErase_ne _ _ _ hne]
              exact hu₀
          · rintro ⟨c, w, u₀, hc, hw, hu₀, hid⟩
            rw [alistGet?_alistErase_ne _ _ _ hr] at hc
            exact (hinv.memExact r mems' h uid).mpr
              ⟨c, w, u₀, hc, hw, (hsub w u₀ hu₀).2, hid⟩
      · rw [if_neg hnil]
        rw [if_neg hnil] at hbase
        refine ⟨_, rfl, hbase, huidInj, ?_⟩
        intro r mems' h uid
        rw [alistGet?_alistSet] at h
        by_cases hr : room = r
        · rw [if_pos hr] at h
          cases h
          subst hr
          constructor
          · intro hmem
            rw [mem_setDiscard] at hmem
            obtain ⟨hmem₁, hmem₂⟩ := hmem
            obtain ⟨c, w, u₀, hc, hw, hu₀, hid⟩ :=
              (hinv.memExact room mems hrm uid).mp hmem₁
            rw [hac] at hc
            cases hc
            have hne : ws ≠ w := by
              intro he
              rw [← he, hsess] at hu₀
              cases hu₀
              exact hmem₂ hid.symm
            refine ⟨setDiscard ws conns, w, u₀, ?_, ?_, ?_, hid⟩
            · rw [alistGet?_alistSet_self]
            · rw [mem_setDiscard]
              exact ⟨hw, fun he => hne he.symm⟩
            · rw [alistGet?_alistErase_ne _ _ _ hne]
              exact hu₀
          · rintro ⟨c, w, u₀, hc, hw, hu₀, hid⟩
            rw [alistGet?_alistSet_self] at hc
            cases hc
            rw [mem_setDiscard] at hw
            obtain ⟨hwc, hwne⟩ := hw
            obtain ⟨-, hu₀'⟩ := hsub w u₀ hu₀
            have huidne : uid ≠ u.id := by
              intro he
              apply hwne
              exact hinv.uidInj w u₀ ws u hu₀' hsess (by rw [hid, he])
            rw [mem_setDiscard]
            exact ⟨(hinv.memExact room mems hrm uid).mpr
              ⟨conns, w, u₀, hac, hwc, hu₀', hid⟩, huidne⟩
        · rw [if_neg hr] at h
          constructor
          · intro hmem
            obtain ⟨c, w, u₀, hc, hw, hu₀, hid⟩ :=
              (hinv.memExact r mems' h uid).mp hmem
            have hne : ws ≠ w := hother r c w (fun he => hr he.symm) hc hw
            refine ⟨c, w, u₀, ?_, hw, ?_, hid⟩
            · rw [alistGet?_alistSet, if_neg hr]
              exact hc
            · rw [alistGet?_alistErase_ne _ _ _ hne]
              exact hu₀
          · rintro ⟨c, w, u₀, hc, hw, hu₀, hid⟩
            rw [alistGet?_alistSet, if_neg hr] at hc
            exact (hinv.memExact r mems' h uid).mpr
              ⟨c, w, u₀, hc, hw, (hsub w u₀ hu₀).2, hid⟩

/-- `disconnectAll` preserves the extended invariant. -/
theorem disconnectAll_invX (l : List Nat) (cm : ConnectionManager)
    (hinv : InvX cm) : ∃ cm', cm.disconnectAll l = some cm' ∧ InvX cm' := by
  induction l generalizing cm with
  | nil => exact ⟨cm, rfl, hinv⟩
  | cons ws rest ih =>
      obtain ⟨cm₁, heq₁, hinv₁⟩ := disconnect_invX cm ws hinv
      obtain ⟨cm₂, heq₂, hinv₂⟩ := ih cm₁ hinv₁
      refine ⟨cm₂, ?_, hinv₂⟩
      unfold disconnectAll
      rw [heq₁]
      exact heq₂

/-- `broadcast_to_room` never raises under the extended invariant and
preserves it. -/
theorem broadcast_invX (cm : ConnectionManager) (room : String)
    (message : Message) (fails : List Nat) (hinv : InvX cm) :
    ∃ res, cm.broadcast_to_room room message fails = some res ∧
      InvX res.state := by
  unfold broadcast_to_room
  cases hac : alistGet? room cm.active_connections with
  | none => exact ⟨⟨cm, [], true⟩, rfl, hinv⟩
  | some conns =>
      obtain ⟨cm', heq, hinv'⟩ :=
        disconnectAll_invX (conns.filter (fun c => decide (c ∈ fails))) cm hinv
      refine ⟨⟨cm', (conns.filter (fun c => decide (c ∉ fails))).map
        (fun c => (c, message.model_dump_wire)), false⟩, ?_, hinv'⟩
      simp [heq]

/-! ### Effect of the operations on the session map -/

theorem alistErase_sublist {α β : Type _} [DecidableEq α] (k : α)
    (l : List (α × β)) : List.Sublist (alistErase k l) l := by
  induction l with
  | nil => exact List.Sublist.refl []
  | cons p rest ih =>
      obtain ⟨k₀, v₀⟩ := p
      rw [alistErase_cons]
      by_cases h0 : k₀ = k
      · rw [if_pos h0]
        exact List.sublist_cons_self _ _
      · rw [if_neg h0]
        exact List.Sublist.cons₂ _ ih

theorem alistSet_of_not_mem {α β : Type _} [DecidableEq α] (k : α) (v : β)
    (l : List (α × β)) (h : alistGet? k l = none) :
    alistSet k v l = l ++ [(k, v)] := by
  induction l with
  | nil => rfl
  | cons p rest ih =>
      obtain ⟨k₀, v₀⟩ := p
      rw [alistGet?_cons] at h
      by_cases h0 : k₀ = k
      · rw [if_pos h0] at h
        exact Option.noConfusion h
      · rw [if_neg h0] at h
        rw [alistSet_cons, if_neg h0, ih h, List.cons_append]

theorem connect_user_sessions (cm : ConnectionManager) (ws : Nat) (user : User)
    (room : String) (cm' : ConnectionManager)
    (h : cm.connect ws user room = some cm') :
    cm'.user_sessions =
      alistSet ws { user with current_room := some room } cm.user_sessions := by
  unfold connect at h
  simp only [] at h
  by_cases hinit : (alistGet? room cm.active_connections).isNone
  · rw [if_pos hinit, if_pos hinit] at h
    rw [alistGet?_alistSet_self] at h
    rw [alistGet?_alistSet_self] at h
    simp only [] at h
    cases h
    rfl
  · rw [if_neg hinit, if_neg hinit] at h
    cases hac : alistGet? room cm.active_connections with
    | none => rw [hac] at hinit; exact absurd rfl hinit
    | some conns =>
        rw [hac] at h
        cases hrm : alistGet? room cm.room_members with
        | none =>
            rw [hrm] at h
            exact Option.noConfusion h
        | some mems =>
            rw [hrm] at h
            simp only [] at h
            cases h
            rfl

theorem disconnect_user_sessions (cm : ConnectionManager) (ws : Nat)
    (cm' : ConnectionManager) (h : cm.disconnect ws = some cm') :
    cm'.user_sessions = cm.user_sessions ∨
      cm'.user_sessions = alistErase ws cm.user_sessions := by
  unfold disconnect at h
  cases hsess : alistGet? ws cm.user_sessions with
  | none =>
      rw [hsess] at h
      cases h
      exact Or.inl rfl
  | some u =>
      rw [hsess] at h
      simp only [] at h
      cases hcr : u.current_room with
      | none =>
          rw [hcr] at h
          simp only [] at h
          cases h
          exact Or.inr rfl
      | some room =>
          rw [hcr] at h
          simp only [] at h
          by_cases hroom : room = ""
          · rw [if_pos hroom] at h
            cases h
            exact Or.inr rfl
          · rw [if_neg hroom] at h
            cases hac : alistGet? room cm.active_connections with
            | none =>
                rw [hac] at h
                simp only [] at h
                cases h
                exact Or.inr rfl
            | some conns =>
                rw [hac] at h
                simp only [] at h
                cases hrm : alistGet? room cm.room_members with
                | none =>
                    rw [hrm] at h
                    simp only [] at h
                    exact Option.noConfusion h
                | some mems =>
                    rw [hrm] at h
                    simp only [] at h
                    by_cases hnil : setDiscard ws conns = []
                    · rw [if_pos hnil] at h
                      cases h
                      exact Or.inr rfl
                    · rw [if_neg hnil] at h
                      cases h
                      exact Or.inr rfl

theorem disconnect_sessions_sublist (cm : ConnectionManager) (ws : Nat)
    (cm' : ConnectionManager) (h : cm.disconnect ws = some cm') :
    List.Sublist cm'.user_sessions cm.user_sessions := by
  rcases disconnect_user_sessions cm ws cm' h with h' | h'
  · rw [h']
  · rw [h']
    exact alistErase_sublist ws cm.user_sessions

theorem disconnectAll_sessions_sublist (l : List Nat) (cm : ConnectionManager)
    (cm' : ConnectionManager) (h : cm.disconnectAll l = some cm') :
    List.Sublist cm'.user_sessions cm.user_sessions := by
  induction l generalizing cm with
  | nil =>
      unfold disconnectAll at h
      cases h
      exact List.Sublist.refl _
  | cons ws rest ih =>
      unfold disconnectAll at h
      cases hd : cm.disconnect ws with
      | none => rw [hd] at h; exact Option.noConfusion h
      | some cm₁ =>
          rw [hd] at h
          exact (ih cm₁ h).trans (disconnect_sessions_sublist cm ws cm₁ hd)

theorem broadcast_sessions_sublist (cm : ConnectionManager) (room : String)
    (message : Message) (fails : List Nat) (res : BroadcastResult)
    (h : cm.broadcast_to_room room message fails = some res) :
    List.Sublist res.state.user_sessions cm.user_sessions := by
  unfold broadcast_to_room at h
  cases hac : alistGet? room cm.active_connections with
  | none =>
      rw [hac] at h
      cases h
      exact List.Sublist.refl _
  | some conns =>
      rw [hac] at h
      simp only [] at h
      cases hd : cm.disconnectAll (conns.filter (fun c => decide (c ∈ fails))) with
      | none => rw [hd] at h; exact Option.noConfusion h
      | some cm₁ =>
          rw [hd] at h
          cases h
          exact disconnectAll_sessions_sublist _ cm cm₁ hd

/-! ### Operation sequences -/

/-- One registry operation, as driven by the gateway. -/
inductive Op
  | connect (ws : Nat) (user : User) (room : String)
  | disconnect (ws : Nat)
  | broadcast (room : String) (message : Message) (fails : List Nat)
deriving DecidableEq, Repr

/-- Apply one operation to the registry state. -/
def runOp (cm : ConnectionManager) : Op → Option ConnectionManager
  | .connect ws user room => cm.connect ws user room
  | .disconnect ws => cm.disconnect ws
  | .broadcast room message fails =>
      (cm.broadcast_to_room room message fails).map BroadcastResult.state

/-- Apply a sequence of operations; `none` as soon as one raises. -/
def runOps (cm : ConnectionManager) : List Op → Option ConnectionManager
  | [] => some cm
  | op :: rest =>
      match runOp cm op with
      | none => none
      | some cm' => runOps cm' rest

/-- Run a sequence of operations from the freshly-initialized registry. -/
def run (ops : List Op) : Option ConnectionManager :=
  runOps ConnectionManager.empty ops

/-- The websocket handles used by the connect operations of a trace. -/
def connectWss : List Op → List Nat
  | [] => []
  | .connect ws _ _ :: rest => ws :: connectWss rest
  | _ :: rest => connectWss rest

/-- The user ids used by the connect operations of a trace. -/
def connectUids : List Op → List String
  | [] => []
  | .connect _ user _ :: rest => user.id :: connectUids rest
  | _ :: rest => connectUids rest

/-- Every connect operation of the trace names a nonempty room id. -/
def roomsNonempty (ops : List Op) : Bool :=
  ops.all fun op =>
    match op with
    | .connect _ _ room => !(decide (room = ""))
    | _ => true

/-- The current session keys of a registry state. -/
def sessionKeys (cm : ConnectionManager) : List Nat :=
  cm.user_sessions.map Prod.fst

/-- The current session user ids of a registry state. -/
def sessionUids (cm : ConnectionManager) : List String :=
  cm.user_sessions.map (fun q => q.2.id)

theorem mem_of_alistGet? {α β : Type _} [DecidableEq α] (k : α) (v : β)
    (l : List (α × β)) (h : alistGet? k l = some v) : (k, v) ∈ l := by
  induction l with
  | nil => exact Option.noConfusion h
  | cons p rest ih =>
      obtain ⟨k₀, v₀⟩ := p
      rw [alistGet?_cons] at h
      by_cases h0 : k₀ = k
      · rw [if_pos h0] at h
        cases h
        rw [h0]
        exact List.mem_cons_self _ _
      · rw [if_neg h0] at h
        exact List.mem_cons_of_mem _ (ih h)

/-- `disconnectAll` preserves the base invariant. -/
theorem disconnectAll_inv (l : List Nat) (cm : ConnectionManager)
    (hinv : Inv cm) : ∃ cm', cm.disconnectAll l = some cm' ∧ Inv cm' := by
  induction l generalizing cm with
  | nil => exact ⟨cm, rfl, hinv⟩
  | cons ws rest ih =>
      obtain ⟨cm₁, heq₁, hinv₁⟩ := disconnect_inv cm ws hinv
      obtain ⟨cm₂, heq₂, hinv₂⟩ := ih cm₁ hinv₁
      refine ⟨cm₂, ?_, hinv₂⟩
      unfold disconnectAll
      rw [heq₁]
      exact heq₂

/-- `broadcast_to_room` never raises under the base invariant and
preserves it. -/
theorem broadcast_inv (cm : ConnectionManager) (room : String)
    (message : Message) (fails : List Nat) (hinv : Inv cm) :
    ∃ res, cm.broadcast_to_room room message fails = some res ∧
      Inv res.state := by
  unfold broadcast_to_room
  cases hac : alistGet? room cm.active_connections with
  | none => exact ⟨⟨cm, [], true⟩, rfl, hinv⟩
  | some conns =>
      obtain ⟨cm', heq, hinv'⟩ :=
        disconnectAll_inv (conns.filter (fun c => decide (c ∈ fails))) cm hinv
      refine ⟨⟨cm', (conns.filter (fun c => decide (c ∉ fails))).map
        (fun c => (c, message.model_dump_wire)), false⟩, ?_, hinv'⟩
      simp [heq]

theorem connectWss_cons_connect (ws : Nat) (user : User) (room : String)
    (rest : List Op) :
    connectWss (Op.connect ws user room :: rest) = ws :: connectWss rest := rfl

theorem connectWss_cons_disconnect (ws : Nat) (rest : List Op) :
    connectWss (Op.disconnect ws :: rest) = connectWss rest := rfl

theorem connectWss_cons_broadcast (room : String) (message : Message)
    (fails : List Nat) (rest : List Op) :
    connectWss (Op.broadcast room message fails :: rest) = connectWss rest := rfl

theorem connectUids_cons_connect (ws : Nat) (user : User) (room : String)
    (rest : List Op) :
    connectUids (Op.connect ws user room :: rest) =
      user.id :: connectUids rest := rfl

theorem connectUids_cons_disconnect (ws : Nat) (rest : List Op) :
    connectUids (Op.disconnect ws :: rest) = connectUids rest := rfl

theorem connectUids_cons_broadcast (room : String) (message : Message)
    (fails : List Nat) (rest : List Op) :
    connectUids (Op.broadcast room message fails :: rest) =
      connectUids rest := rfl

/-- Running a trace whose connects use pairwise-fresh websocket handles and
nonempty room ids, from a state satisfying the base invariant, never raises
and preserves the base invariant. -/
theorem runOps_inv_syn (ops : List Op) : ∀ cm : ConnectionManager, Inv cm →
    (sessionKeys cm ++ connectWss ops).Nodup →
    roomsNonempty ops = true →
    ∃ cm', runOps cm ops = some cm' ∧ Inv cm' := by
  induction ops with
  | nil =>
      intro cm hinv _ _
      exact ⟨cm, rfl, hinv⟩
  | cons op rest ih =>
      intro cm hinv hws hrooms
      rw [roomsNonempty, List.all_cons, Bool.and_eq_true] at hrooms
      obtain ⟨hop, hrest⟩ := hrooms
      rw [← roomsNonempty] at hrest
      cases op with
      | connect ws user room =>
          have hroom : room ≠ "" := by simpa using hop
          rw [connectWss_cons_connect, List.nodup_append] at hws
          have hfresh : alistGet? ws cm.user_sessions = none := by
            rw [alistGet?_eq_none_iff]
            intro hc
            exact hws.2.2 hc (List.mem_cons_self _ _)
          obtain ⟨cm₁, heq, hinv₁⟩ := connect_inv cm ws user room hinv hfresh hroom
          have hkeys : sessionKeys cm₁ = sessionKeys cm ++ [ws] := by
            rw [sessionKeys, connect_user_sessions cm ws user room cm₁ heq,
              alistSet_of_not_mem _ _ _ hfresh, List.map_append]
            rfl
          have hws₁ : (sessionKeys cm₁ ++ connectWss rest).Nodup := by
            rw [hkeys, List.append_assoc, List.singleton_append,
              List.nodup_append]
            exact ⟨hws.1, hws.2.1, hws.2.2⟩
          obtain ⟨cm₂, heq₂, hinv₂⟩ := ih cm₁ hinv₁ hws₁ hrest
          refine ⟨cm₂, ?_, hinv₂⟩
          unfold runOps
          have hstep : runOp cm (Op.connect ws user room) = some cm₁ := heq
          rw [hstep]
          exact heq₂
      | disconnect ws =>
          rw [connectWss_cons_disconnect] at hws
          obtain ⟨cm₁, heq, hinv₁⟩ := disconnect_inv cm ws hinv
          have hws₁ : (sessionKeys cm₁ ++ connectWss rest).Nodup := by
            refine List.Nodup.sublist ?_ hws
            exact List.Sublist.append_right
              (List.Sublist.map _ (disconnect_sessions_sublist cm ws cm₁ heq)) _
          obtain ⟨cm₂, heq₂, hinv₂⟩ := ih cm₁ hinv₁ hws₁ hrest
          refine ⟨cm₂, ?_, hinv₂⟩
          unfold runOps
          have hstep : runOp cm (Op.disconnect ws) = some cm₁ := heq
          rw [hstep]
          exact heq₂
      | broadcast room message fails =>
          rw [connectWss_cons_broadcast] at hws
          obtain ⟨res, heq, hinv₁⟩ := broadcast_inv cm room message fails hinv
          have hws₁ : (sessionKeys res.state ++ connectWss rest).Nodup := by
            refine List.Nodup.sublist ?_ hws
            exact List.Sublist.append_right
              (List.Sublist.map _
                (broadcast_sessions_sublist cm room message fails res heq)) _
          obtain ⟨cm₂, heq₂, hinv₂⟩ := ih res.state hinv₁ hws₁ hrest
          refine ⟨cm₂, ?_, hinv₂⟩
          unfold runOps
          have hstep : runOp cm (Op.broadcast room message fails) =
              some res.state := by
            simp [runOp, heq]
          rw [hstep]
          exact heq₂

/-- Running a trace whose connects additionally use pairwise-fresh user ids
preserves the extended invariant. -/
theorem runOps_invX_syn (ops : List Op) : ∀ cm : ConnectionManager, InvX cm →
    (sessionKeys cm ++ connectWss ops).Nodup →
    (sessionUids cm ++ connectUids ops).Nodup →
    roomsNonempty ops = true →
    ∃ cm', runOps cm ops = some cm' ∧ InvX cm' := by
  induction ops with
  | nil =>
      intro cm hinv _ _ _
      exact ⟨cm, rfl, hinv⟩
  | cons op rest ih =>
      intro cm hinv hws huids hrooms
      rw [roomsNonempty, List.all_cons, Bool.and_eq_true] at hrooms
      obtain ⟨hop, hrest⟩ := hrooms
      rw [← roomsNonempty] at hrest
      cases op with
      | connect ws user room =>
          have hroom : room ≠ "" := by simpa using hop
          rw [connectWss_cons_connect, List.nodup_append] at hws
          rw [connectUids_cons_connect, List.nodup_append] at huids
          have hfresh : alistGet? ws cm.user_sessions = none := by
            rw [alistGet?_eq_none_iff]
            intro hc
            exact hws.2.2 hc (List.mem_cons_self _ _)
          have huid : ∀ w u₀, alistGet? w cm.user_sessions = some u₀ →
              u₀.id ≠ user.id := by
            intro w u₀ hw he
            have hmem : u₀.id ∈ sessionUids cm :=
              List.mem_map_of_mem (fun q => q.2.id)
                (mem_of_alistGet? w u₀ cm.user_sessions hw)
            rw [he] at hmem
            exact huids.2.2 hmem (List.mem_cons_self _ _)
          obtain ⟨cm₁, heq, hinv₁⟩ :=
            connect_invX cm ws user room hinv hfresh huid hroom
          have hkeys : sessionKeys cm₁ = sessionKeys cm ++ [ws] := by
            rw [sessionKeys, connect_user_sessions cm ws user room cm₁ heq,
              alistSet_of_not_mem _ _ _ hfresh, List.map_append]
            rfl
          have huidkeys : sessionUids cm₁ = sessionUids cm ++ [user.id] := by
            rw [sessionUids, connect_user_sessions cm ws user room cm₁ heq,
              alistSet_of_not_mem _ _ _ hfresh, List.map_append]
            rfl
          have hws₁ : (sessionKeys cm₁ ++ connectWss rest).Nodup := by
            rw [hkeys, List.append_assoc, List.singleton_append,
              List.nodup_append]
            exact ⟨hws.1, hws.2.1, hws.2.2⟩
          have huids₁ : (sessionUids cm₁ ++ connectUids rest).Nodup := by
            rw [huidkeys, List.append_assoc, List.singleton_append,
              List.nodup_append]
            exact ⟨huids.1, huids.2.1, huids.2.2⟩
          obtain ⟨cm₂, heq₂, hinv₂⟩ := ih cm₁ hinv₁ hws₁ huids₁ hrest
          refine ⟨cm₂, ?_, hinv₂⟩
          unfold runOps
          have hstep : runOp cm (Op.connect ws user room) = some cm₁ := heq
          rw [hstep]
          exact heq₂
      | disconnect ws =>
          rw [connectWss_cons_disconnect] at hws
          rw [connectUids_cons_disconnect] at huids
          obtain ⟨cm₁, heq, hinv₁⟩ := disconnect_invX cm ws hinv
          have hsub := disconnect_sessions_sublist cm ws cm₁ heq
          have hws₁ : (sessionKeys cm₁ ++ connectWss rest).Nodup :=
            List.Nodup.sublist
              (List.Sublist.append_right (List.Sublist.map _ hsub) _) hws
          have huids₁ : (sessionUids cm₁ ++ connectUids rest).Nodup :=
            List.Nodup.sublist
              (List.Sublist.append_right (List.Sublist.map _ hsub) _) huids
          obtain ⟨cm₂, heq₂, hinv₂⟩ := ih cm₁ hinv₁ hws₁ huids₁ hrest
          refine ⟨cm₂, ?_, hinv₂⟩
          unfold runOps
          have hstep : runOp cm (Op.disconnect ws) = some cm₁ := heq
          rw [hstep]
          exact heq₂
      | broadcast room message fails =>
          rw [connectWss_cons_broadcast] at hws
          rw [connectUids_cons_broadcast] at huids
          obtain ⟨res, heq, hinv₁⟩ := broadcast_invX cm room message fails hinv
          have hsub := broadcast_sessions_sublist cm room message fails res heq
          have hws₁ : (sessionKeys res.state ++ connectWss rest).Nodup :=
            List.Nodup.sublist
              (List.Sublist.append_right (List.Sublist.map _ hsub) _) hws
          have huids₁ : (sessionUids res.state ++ connectUids rest).Nodup :=
            List.Nodup.sublist
              (List.Sublist.append_right (List.Sublist.map _ hsub) _) huids
          obtain ⟨cm₂, heq₂, hinv₂⟩ := ih res.state hinv₁ hws₁ huids₁ hrest
          refine ⟨cm₂, ?_, hinv₂⟩
          unfold runOps
          have hstep : runOp cm (Op.broadcast room message fails) =
              some res.state := by
            simp [runOp, heq]
          rw [hstep]
          exact heq₂

/-! ### Member counts -/

/-- The number of distinct user ids among the users whose connections are
currently registered in the room. -/
def distinctRegisteredUserCount (cm : ConnectionManager) (room : String) : Nat :=
  (((alistGet? room cm.active_connections).getD []).filterMap
    (fun ws => (alistGet? ws cm.user_sessions).map User.id)).dedup.length

/-- Under the extended invariant, `get_room_member_count` returns the
number of distinct user ids of the currently registered connections, and a
room whose count is zero has no entry in either room map. -/
theorem memberCount_eq_distinct (cm : ConnectionManager) (room : String)
    (hinv : InvX cm) :
    cm.get_room_member_count room = distinctRegisteredUserCount cm room ∧
    (cm.get_room_member_count room = 0 →
      alistGet? room cm.active_connections = none ∧
      alistGet? room cm.room_members = none) := by
  cases hrm : alistGet? room cm.room_members with
  | none =>
      have hac : alistGet? room cm.active_connections = none := by
        cases hac' : alistGet? room cm.active_connections with
        | none => rfl
        | some c =>
            have hS := (hinv.keysEq room).mp (by rw [hac']; rfl)
            rw [hrm] at hS
            exact absurd hS (by simp)
      constructor
      · rw [get_room_member_count, hrm, distinctRegisteredUserCount, hac]
        rfl
      · intro _
        exact ⟨hac, rfl⟩
  | some mems =>
      have hacS : (alistGet? room cm.active_connections).isSome :=
        (hinv.keysEq room).mpr (by rw [hrm]; rfl)
      cases hac : alistGet? room cm.active_connections with
      | none => rw [hac] at hacS; exact absurd hacS (by simp)
      | some conns =>
          have hmemiff : ∀ uid, uid ∈ mems ↔ uid ∈ conns.filterMap
              (fun ws => (alistGet? ws cm.user_sessions).map User.id) := by
            intro uid
            rw [hinv.memExact room mems hrm uid, List.mem_filterMap]
            constructor
            · rintro ⟨c, w, u, hc, hw, hu, hid⟩
              rw [hac] at hc
              cases hc
              refine ⟨w, hw, ?_⟩
              rw [hu]
              simp [hid]
            · rintro ⟨w, hw, hf⟩
              cases hu : alistGet? w cm.user_sessions with
              | none => rw [hu] at hf; exact Option.noConfusion hf
              | some u =>
                  rw [hu] at hf
                  simp only [Option.map_some'] at hf
                  cases hf
                  exact ⟨conns, w, u, hac, hw, hu, rfl⟩
          have hnodupm : mems.Nodup := hinv.memsNodup room mems hrm
          have hperm : mems.Perm (conns.filterMap
              (fun ws => (alistGet? ws cm.user_sessions).map User.id)).dedup := by
            rw [List.perm_ext_iff_of_nodup hnodupm (List.nodup_dedup _)]
            intro a
            rw [List.mem_dedup]
            exact hmemiff a
          constructor
          · rw [get_room_member_count, hrm, distinctRegisteredUserCount, hac]
            simpa using hperm.length_eq
          · intro h0
            rw [get_room_member_count, hrm] at h0
            simp only [Option.getD_some] at h0
            rw [List.length_eq_zero] at h0
            exfalso
            have hne := hinv.connsNE room conns hac
            obtain ⟨w, hw⟩ := List.exists_mem_of_ne_nil conns hne
            obtain ⟨u, hu, -⟩ := hinv.back room conns w hac hw
            have hmem : u.id ∈ mems :=
              (hinv.memExact room mems hrm u.id).mpr
                ⟨conns, w, u, hac, hw, hu, rfl⟩
            rw [h0] at hmem
            exact absurd hmem (List.not_mem_nil _)

/-- With no duplicates, filtering a list by membership in `[f]` with
`f ∈ l` yields exactly `[f]`. -/
theorem filter_mem_single {α : Type _} [DecidableEq α] (l : List α) (f : α)
    (hnd : l.Nodup) (hf : f ∈ l) :
    l.filter (fun c => decide (c ∈ [f])) = [f] := by
  induction l with
  | nil => exact absurd hf (List.not_mem_nil f)
  | cons a rest ih =>
      rw [List.nodup_cons] at hnd
      by_cases ha : a = f
      · subst ha
        rw [List.filter_cons_of_pos (by simp)]
        have : rest.filter (fun c => decide (c ∈ [a])) = [] := by
          rw [List.filter_eq_nil_iff]
          intro b hb
          simp only [List.mem_singleton, decide_eq_true_eq]
          intro he
          subst he
          exact hnd.1 hb
        rw [this]
      · rw [List.filter_cons_of_neg (by simp [ha])]
        rcases List.mem_cons.mp hf with he | he
        · exact absurd he.symm ha
        · exact ih hnd.2 he

theorem count_map_pair {α β : Type _} [DecidableEq α] [DecidableEq β]
    (l : List α) (w : β) (c : α) :
    (l.map (fun x => (x, w))).count (c, w) = l.count c := by
  induction l with
  | nil => rfl
  | cons a rest ih =>
      rw [List.map_cons, List.count_cons, List.count_cons, ih]
      by_cases ha : a = c
      · simp [ha]
      · simp [ha, Prod.ext_iff]

/-! ### Claim C1 -/

/-- C1 fails as stated: two fresh websocket handles (0 and 1) connect to
room `"r"` with the same user id `"u"`, then handle 0 disconnects.  The
member count drops to 0 although one connection with user id `"u"` is still
registered (distinct-registered count 1), and the room keeps an entry in
`room_members` although the count reached 0. -/
theorem claim_C1_counterexample :
    (run [Op.connect 0 ⟨"u", "alice", none⟩ "r",
          Op.connect 1 ⟨"u", "alice", none⟩ "r",
          Op.disconnect 0]).map (fun cm =>
      (cm.get_room_member_count "r", distinctRegisteredUserCount cm "r",
       (alistGet? "r" cm.room_members).isSome)) = some (0, 1, true) := by
  decide

/-- C1 (amended): for every sequence of registry operations whose connects
use pairwise-distinct websocket handles, pairwise-distinct user ids and
nonempty room ids, the run never raises and afterwards
`get_room_member_count room` equals the number of distinct user ids among
the users whose connections are currently registered in `room`, and a room
whose count reached 0 has no entry in `active_connections` or
`room_members`. -/
theorem claim_C1 (ops : List Op) (room : String)
    (hws : (connectWss ops).Nodup) (huids : (connectUids ops).Nodup)
    (hrooms : roomsNonempty ops = true) :
    ∃ cm, run ops = some cm ∧
      cm.get_room_member_count room = distinctRegisteredUserCount cm room ∧
      (cm.get_room_member_count room = 0 →
        alistGet? room cm.active_connections = none ∧
        alistGet? room cm.room_members = none) := by
  obtain ⟨cm, heq, hinv⟩ := runOps_invX_syn ops empty invX_empty
    (by simpa [sessionKeys, empty] using hws)
    (by simpa [sessionUids, empty] using huids) hrooms
  exact ⟨cm, heq, memberCount_eq_distinct cm room hinv⟩

/-- C1 witness: alice (handle 0) and bob (handle 1) join `"general"`, then
alice disconnects. -/
theorem claim_C1_witness :
    ∃ cm, run [Op.connect 0 ⟨"a", "alice", none⟩ "general",
               Op.connect 1 ⟨"b", "bob", none⟩ "general",
               Op.disconnect 0] = some cm ∧
      cm.get_room_member_count "general" =
        distinctRegisteredUserCount cm "general" ∧
      (cm.get_room_member_count "general" = 0 →
        alistGet? "general" cm.active_connections = none ∧
        alistGet? "general" cm.room_members = none) :=
  claim_C1 [Op.connect 0 ⟨"a", "alice", none⟩ "general",
            Op.connect 1 ⟨"b", "bob", none⟩ "general",
            Op.disconnect 0] "general" (by decide) (by decide) (by decide)

/-! ### Claim C3 -/

/-- C3 fails as stated: connecting fresh handle 0 to the room with the
empty-string id and then disconnecting it leaves handle 0 inside room
`""`'s connection set with no `user_sessions` entry, because the Python
guard `if room_id and ...` treats the empty string as falsy and skips the
room cleanup. -/
theorem claim_C3_counterexample :
    (run [Op.connect 0 ⟨"u", "alice", none⟩ "", Op.disconnect 0]).map
      (fun cm => (alistGet? "" cm.active_connections,
                  alistGet? 0 cm.user_sessions)) =
      some (some [0], none) := by
  decide

/-- C3 (amended): in every state reachable by operations whose connects use
pairwise-distinct websocket handles and nonempty room ids: each websocket
is in at most one room's connection set; it is in some room's connection
set iff it has a `user_sessions` entry; the two room maps have the same
keys; and no room maps to an empty connection set. -/
theorem claim_C3 (ops : List Op)
    (hws : (connectWss ops).Nodup) (hrooms : roomsNonempty ops = true) :
    ∃ cm, run ops = some cm ∧
      (∀ r₁ r₂ c₁ c₂ ws, alistGet? r₁ cm.active_connections = some c₁ →
        alistGet? r₂ cm.active_connections = some c₂ →
        ws ∈ c₁ → ws ∈ c₂ → r₁ = r₂) ∧
      (∀ ws, (∃ r c, alistGet? r cm.active_connections = some c ∧ ws ∈ c) ↔
        (alistGet? ws cm.user_sessions).isSome) ∧
      (∀ r, (alistGet? r cm.active_connections).isSome ↔
        (alistGet? r cm.room_members).isSome) ∧
      (∀ r c, alistGet? r cm.active_connections = some c → c ≠ []) := by
  obtain ⟨cm, heq, hinv⟩ := runOps_inv_syn ops empty inv_empty
    (by simpa [sessionKeys, empty] using hws) hrooms
  refine ⟨cm, heq, ?_, ?_, hinv.keysEq, hinv.connsNE⟩
  · intro r₁ r₂ c₁ c₂ ws h₁ h₂ hw₁ hw₂
    obtain ⟨u, hu, hcr⟩ := hinv.back r₁ c₁ ws h₁ hw₁
    exact (hinv.room_unique ws u r₁ r₂ c₂ hu hcr h₂ hw₂).symm
  · intro ws
    constructor
    · rintro ⟨r, c, hc, hw⟩
      obtain ⟨u, hu, -⟩ := hinv.back r c ws hc hw
      rw [hu]
      rfl
    · intro h
      cases hu : alistGet? ws cm.user_sessions with
      | none => rw [hu] at h; exact absurd h (by simp)
      | some u =>
          obtain ⟨r, c, -, -, hc, hw⟩ := hinv.forward ws u hu
          exact ⟨r, c, hc, hw⟩

/-- C3 witness: alice joins `"general"` and `"tech"` gets a member bob,
then a broadcast to `"general"` with a failing connection 0. -/
theorem claim_C3_witness :
    ∃ cm, run [Op.connect 0 ⟨"a", "alice", none⟩ "general",
               Op.connect 1 ⟨"b", "bob", none⟩ "tech",
               Op.broadcast "general"
                 ⟨"a", "alice", "general", "hi", MessageType.chat,
                  ⟨2024, 1, 1, 12, 0, 0, 0⟩⟩ [0]] = some cm ∧
      (∀ r₁ r₂ c₁ c₂ ws, alistGet? r₁ cm.active_connections = some c₁ →
        alistGet? r₂ cm.active_connections = some c₂ →
        ws ∈ c₁ → ws ∈ c₂ → r₁ = r₂) ∧
      (∀ ws, (∃ r c, alistGet? r cm.active_connections = some c ∧ ws ∈ c) ↔
        (alistGet? ws cm.user_sessions).isSome) ∧
      (∀ r, (alistGet? r cm.active_connections).isSome ↔
        (alistGet? r cm.room_members).isSome) ∧
      (∀ r c, alistGet? r cm.active_connections = some c → c ≠ []) :=
  claim_C3 [Op.connect 0 ⟨"a", "alice", none⟩ "general",
            Op.connect 1 ⟨"b", "bob", none⟩ "tech",
            Op.broadcast "general"
              ⟨"a", "alice", "general", "hi", MessageType.chat,
               ⟨2024, 1, 1, 12, 0, 0, 0⟩⟩ [0]] (by decide) (by decide)

/-! ### Claim C2 -/

/-- C2: broadcasting to a room where exactly one connection `f` fails
attempts delivery to every connection of the room's set, delivers the
serialized message exactly once to each of the others, disconnects `f`
after the sweep, and afterwards `get_user_info` is absent for `f`. -/
theorem claim_C2 (cm : ConnectionManager) (room : String) (message : Message)
    (f : Nat) (conns : List Nat) (hinv : Inv cm)
    (hac : alistGet? room cm.active_connections = some conns)
    (hf : f ∈ conns) :
    ∃ res, cm.broadcast_to_room room message [f] = some res ∧
      (∀ c ∈ conns, c = f ∨ (c, message.model_dump_wire) ∈ res.delivered) ∧
      (∀ c ∈ conns, c ≠ f →
        res.delivered.count (c, message.model_dump_wire) = 1) ∧
      (∀ p ∈ res.delivered,
        p.1 ∈ conns ∧ p.1 ≠ f ∧ p.2 = message.model_dump_wire) ∧
      res.state.get_user_info f = none := by
  have hnd : conns.Nodup := hinv.connsNodup room conns hac
  have hfil : conns.filter (fun c => decide (c ∈ [f])) = [f] :=
    filter_mem_single conns f hnd hf
  obtain ⟨u, hu, hcr⟩ := hinv.back room conns f hac hf
  obtain ⟨room', conns', mems', hcr', hroom', hac', hrm', hf', heqd⟩ :=
    disconnect_eq_of_mem cm f u hinv hu
  have husn : (if setDiscard f conns' = [] then
      ({ active_connections := alistErase room' cm.active_connections,
         user_sessions := alistErase f cm.user_sessions,
         room_members := alistErase room' cm.room_members } :
        ConnectionManager)
    else
      { active_connections :=
          alistSet room' (setDiscard f conns') cm.active_connections,
        user_sessions := alistErase f cm.user_sessions,
        room_members :=
          alistSet room' (setDiscard u.id mems') cm.room_members
      }).user_sessions = alistErase f cm.user_sessions := by
    by_cases hn : setDiscard f conns' = []
    · rw [if_pos hn]
    · rw [if_neg hn]
  have hda : cm.disconnectAll [f] = some
      (if setDiscard f conns' = [] then
        { active_connections := alistErase room' cm.active_connections,
          user_sessions := alistErase f cm.user_sessions,
          room_members := alistErase room' cm.room_members }
      else
        { active_connections :=
            alistSet room' (setDiscard f conns') cm.active_connections,
          user_sessions := alistErase f cm.user_sessions,
          room_members :=
            alistSet room' (setDiscard u.id mems') cm.room_members }) := by
    unfold disconnectAll
    rw [heqd]
    simp only []
    rfl
  unfold broadcast_to_room
  rw [hac]
  simp only []
  rw [hfil, hda]
  simp only []
  refine ⟨_, rfl, ?_, ?_, ?_, ?_⟩
  · intro c hc
    by_cases hcf : c = f
    · exact Or.inl hcf
    · refine Or.inr ?_
      rw [List.mem_map]
      refine ⟨c, ?_, rfl⟩
      rw [List.mem_filter]
      exact ⟨hc, by simp [hcf]⟩
  · intro c hc hcf
    rw [count_map_pair]
    refine List.count_eq_one_of_mem (List.Nodup.filter _ hnd) ?_
    rw [List.mem_filter]
    exact ⟨hc, by simp [hcf]⟩
  · intro p hp
    rw [List.mem_map] at hp
    obtain ⟨c, hc, hpe⟩ := hp
    rw [List.mem_filter] at hc
    cases hpe
    refine ⟨hc.1, ?_, rfl⟩
    have := hc.2
    simpa using this
  · rw [get_user_info]
    simp only [husn]
    exact alistGet?_alistErase_self f _ hinv.usKeysNodup

/-- C2 witness: alice (handle 0) and bob (handle 1) are in `"general"`;
delivery to bob's connection fails. -/
theorem claim_C2_witness :
    ∃ res, ConnectionManager.broadcast_to_room
        ⟨[("general", [0, 1])],
         [(0, ⟨"a", "alice", some "general"⟩),
          (1, ⟨"b", "bob", some "general"⟩)],
         [("general", ["a", "b"])]⟩ "general"
        ⟨"a", "alice", "general", "hi", MessageType.chat,
         ⟨2024, 1, 1, 12, 0, 0, 0⟩⟩ [1] = some res ∧
      (∀ c ∈ [0, 1], c = 1 ∨
        (c, Message.model_dump_wire
          ⟨"a", "alice", "general", "hi", MessageType.chat,
           ⟨2024, 1, 1, 12, 0, 0, 0⟩⟩) ∈ res.delivered) ∧
      (∀ c ∈ [0, 1], c ≠ 1 →
        res.delivered.count (c, Message.model_dump_wire
          ⟨"a", "alice", "general", "hi", MessageType.chat,
           ⟨2024, 1, 1, 12, 0, 0, 0⟩⟩) = 1) ∧
      (∀ p ∈ res.delivered, p.1 ∈ [0, 1] ∧ p.1 ≠ 1 ∧
        p.2 = Message.model_dump_wire
          ⟨"a", "alice", "general", "hi", MessageType.chat,
           ⟨2024, 1, 1, 12, 0, 0, 0⟩⟩) ∧
      res.state.get_user_info 1 = none := by
  obtain ⟨cm, heq, hinv⟩ := runOps_inv_syn
    [Op.connect 0 ⟨"a", "alice", none⟩ "general",
     Op.connect 1 ⟨"b", "bob", none⟩ "general"] empty inv_empty
    (by decide) (by decide)
  have h2 : runOps empty
      [Op.connect 0 ⟨"a", "alice", none⟩ "general",
       Op.connect 1 ⟨"b", "bob", none⟩ "general"] = some
      ⟨[("general", [0, 1])],
       [(0, ⟨"a", "alice", some "general"⟩),
        (1, ⟨"b", "bob", some "general"⟩)],
       [("general", ["a", "b"])]⟩ := by decide
  rw [heq] at h2
  cases h2
  exact claim_C2 _ "general"
    ⟨"a", "alice", "general", "hi", MessageType.chat,
     ⟨2024, 1, 1, 12, 0, 0, 0⟩⟩ 1 [0, 1] hinv (by decide) (by decide)

/-! ### Claim C5 -/

/-- C5: `broadcast_to_room` on an unknown room returns normally with a
logged warning, no deliveries and the registry unchanged; and a connection
that is not in the target room's connection set never receives a
delivery. -/
theorem claim_C5 (cm : ConnectionManager) (room : String) (message : Message)
    (fails : List Nat) :
    (alistGet? room cm.active_connections = none →
      cm.broadcast_to_room room message fails = some ⟨cm, [], true⟩) ∧
    (∀ res, cm.broadcast_to_room room message fails = some res →
      ∀ c, (∀ conns, alistGet? room cm.active_connections = some conns →
          c ∉ conns) →
        ∀ w, (c, w) ∉ res.delivered) := by
  constructor
  · intro h
    unfold broadcast_to_room
    rw [h]
  · intro res hres c hc w hmem
    unfold broadcast_to_room at hres
    cases hac : alistGet? room cm.active_connections with
    | none =>
        rw [hac] at hres
        cases hres
        exact absurd hmem (List.not_mem_nil _)
    | some conns =>
        rw [hac] at hres
        simp only [] at hres
        cases hda : cm.disconnectAll
            (conns.filter (fun x => decide (x ∈ fails))) with
        | none => rw [hda] at hres; exact Option.noConfusion hres
        | some cm₁ =>
            rw [hda] at hres
            simp only [] at hres
            cases hres
            rw [List.mem_map] at hmem
            obtain ⟨c', hc', hpe⟩ := hmem
            rw [List.mem_filter] at hc'
            cases hpe
            exact hc conns hac hc'.1

/-- C5 witness: broadcasting to the absent room `"nope"` on the state with
only `"general"` is a warned no-op. -/
theorem claim_C5_witness :
    ConnectionManager.broadcast_to_room
      ⟨[("general", [0])], [(0, ⟨"a", "alice", some "general"⟩)],
       [("general", ["a"])]⟩ "nope"
      ⟨"a", "alice", "nope", "hi", MessageType.chat,
       ⟨2024, 1, 1, 12, 0, 0, 0⟩⟩ [] =
      some ⟨⟨[("general", [0])], [(0, ⟨"a", "alice", some "general"⟩)],
            [("general", ["a"])]⟩, [], true⟩ :=
  (claim_C5 ⟨[("general", [0])], [(0, ⟨"a", "alice", some "general"⟩)],
       [("general", ["a"])]⟩ "nope"
      ⟨"a", "alice", "nope", "hi", MessageType.chat,
       ⟨2024, 1, 1, 12, 0, 0, 0⟩⟩ []).1 (by decide)

/-! ### Claim C6 -/

/-- C6: on every invariant-satisfying registry state, `disconnect` of an
unknown websocket returns with the state unchanged; of a live websocket, it
removes the connection from its room's connection set and the user's id
from the room's member-id set, drops the room's entries from both room maps
when the connection set empties, and removes the session. -/
theorem claim_C6 (cm : ConnectionManager) (ws : Nat) (hinv : Inv cm) :
    (alistGet? ws cm.user_sessions = none → cm.disconnect ws = some cm) ∧
    (∀ u, alistGet? ws cm.user_sessions = some u →
      ∃ room conns mems, u.current_room = some room ∧
        alistGet? room cm.active_connections = some conns ∧
        alistGet? room cm.room_members = some mems ∧ ws ∈ conns ∧
        cm.disconnect ws = some
          (if setDiscard ws conns = [] then
            { active_connections := alistErase room cm.active_connections,
              user_sessions := alistErase ws cm.user_sessions,
              room_members := alistErase room cm.room_members }
          else
            { active_connections :=
                alistSet room (setDiscard ws conns) cm.active_connections,
              user_sessions := alistErase ws cm.user_sessions,
              room_members :=
                alistSet room (setDiscard u.id mems) cm.room_members })) := by
  constructor
  · intro h
    unfold disconnect
    rw [h]
  · intro u h
    obtain ⟨room, conns, mems, hcr, hroom, hac, hrm, hws, heq⟩ :=
      disconnect_eq_of_mem cm ws u hinv h
    exact ⟨room, conns, mems, hcr, hac, hrm, hws, heq⟩

/-- C6 witness: disconnecting bob's handle 1 from the two-member room
`"general"`. -/
theorem claim_C6_witness :
    ∃ room conns mems,
      (⟨"b", "bob", some "general"⟩ : User).current_room = some room ∧
      alistGet? room
        (⟨[("general", [0, 1])],
          [(0, ⟨"a", "alice", some "general"⟩),
           (1, ⟨"b", "bob", some "general"⟩)],
          [("general", ["a", "b"])]⟩ :
            ConnectionManager).active_connections = some conns ∧
      alistGet? room
        (⟨[("general", [0, 1])],
          [(0, ⟨"a", "alice", some "general"⟩),
           (1, ⟨"b", "bob", some "general"⟩)],
          [("general", ["a", "b"])]⟩ :
            ConnectionManager).room_members = some mems ∧ 1 ∈ conns ∧
      ConnectionManager.disconnect
        ⟨[("general", [0, 1])],
         [(0, ⟨"a", "alice", some "general"⟩),
          (1, ⟨"b", "bob", some "general"⟩)],
         [("general", ["a", "b"])]⟩ 1 = some
        (if setDiscard 1 conns = [] then
          { active_connections := alistErase room
              ([("general", [0, 1])] : List (String × List Nat)),
            user_sessions := alistErase 1
              [(0, ⟨"a", "alice", some "general"⟩),
               (1, ⟨"b", "bob", some "general"⟩)],
            room_members := alistErase room [("general", ["a", "b"])] }
        else
          { active_connections := alistSet room (setDiscard 1 conns)
              [("general", [0, 1])],
            user_sessions := alistErase 1
              [(0, ⟨"a", "alice", some "general"⟩),
               (1, ⟨"b", "bob", some "general"⟩)],
            room_members := alistSet room
              (setDiscard ("b" : String) mems) [("general", ["a", "b"])] }) := by
  obtain ⟨cm, heq, hinv⟩ := runOps_inv_syn
    [Op.connect 0 ⟨"a", "alice", none⟩ "general",
     Op.connect 1 ⟨"b", "bob", none⟩ "general"] empty inv_empty
    (by decide) (by decide)
  have h2 : runOps empty
      [Op.connect 0 ⟨"a", "alice", none⟩ "general",
       Op.connect 1 ⟨"b", "bob", none⟩ "general"] = some
      ⟨[("general", [0, 1])],
       [(0, ⟨"a", "alice", some "general"⟩),
        (1, ⟨"b", "bob", some "general"⟩)],
       [("general", ["a", "b"])]⟩ := by decide
  rw [heq] at h2
  cases h2
  exact (claim_C6 _ 1 hinv).2 ⟨"b", "bob", some "general"⟩ (by decide)

end ConnectionManager

/-! ## Claim C8: wire round-trip -/

/-- C8: serializing any `Message` to the wire schema and decoding it back
yields the original message field for field, including the enum value and
the full timestamp (so in particular to one-second precision). -/
theorem claim_C8 (m : Message) (h : m.timestamp.Valid) :
    decodeWire m.model_dump_wire = some m := by
  unfold decodeWire Message.model_dump_wire
  simp only []
  rw [ofWire_toWire]
  simp only []
  rw [parseIso_isoformat m.timestamp h]

/-- C8 witness: a join message with a microsecond-carrying timestamp
round-trips exactly. -/
theorem claim_C8_witness :
    Datetime.Valid ⟨2024, 5, 17, 9, 30, 15, 123456⟩ ∧
    decodeWire (Message.model_dump_wire
      ⟨"u1", "alice", "general", "hi", MessageType.join,
       ⟨2024, 5, 17, 9, 30, 15, 123456⟩⟩) = some
      ⟨"u1", "alice", "general", "hi", MessageType.join,
       ⟨2024, 5, 17, 9, 30, 15, 123456⟩⟩ :=
  ⟨by decide,
   claim_C8 ⟨"u1", "alice", "general", "hi", MessageType.join,
     ⟨2024, 5, 17, 9, 30, 15, 123456⟩⟩ (by decide)⟩

/-! ## Broker listener (embedding of `RedisManager.start_listening`) -/

/-- Outcome of `json.loads` on an inbound broker payload: either a complete
flat record, or malformed JSON / a record pydantic rejects outright. -/
inductive RawPayload
  | wire (w : WireMessage)
  | malformed (s : String)
deriving DecidableEq, Repr

/-- Embedding of `Message(**json.loads(data))` on an inbound payload. -/
def decodePayload : RawPayload → Option Message
  | .malformed _ => none
  | .wire w => decodeWire w

/-- One event yielded by `pubsub.listen()`. -/
structure BrokerEvent where
  type : String
  channel : String
  data : RawPayload
deriving DecidableEq, Repr

/-- The characters after the first colon, or `none` when there is no colon
(in which case `channel.split(":", 1)[1]` raises `IndexError`). -/
def afterFirstColon : List Char → Option (List Char)
  | [] => none
  | c :: rest => if c = ':' then some rest else afterFirstColon rest

/-- Embedding of `channel.split(":", 1)[1]`. -/
def splitFirstColon (s : String) : Option String :=
  (afterFirstColon s.data).map String.mk

/-- The observable outcome of processing one broker event in
`start_listening`: skipped (not a data message), an exception caught and
logged by the inner `try`, the handler invoked (successfully or raising),
or a decoded message with no handler registered. -/
inductive ListenResult
  | skipped
  | errorLogged
  | handled (room : String) (m : Message)
  | handlerRaised (room : String) (m : Message)
  | noHandler (room : String) (m : Message)
deriving Repr

/-- Embedding of the body of the `async for` loop of
`RedisManager.start_listening`.  `handler` is the registered message
handler together with its fault model: `handler room m = false` means the
handler raises on that invocation. -/
def processEvent (handler : Option (String → Message → Bool))
    (ev : BrokerEvent) : ListenResult :=
  if ev.type = "message" then
    match splitFirstColon ev.channel with
    | none => .errorLogged
    | some room =>
      match decodePayload ev.data with
      | none => .errorLogged
      | some m =>
        match handler with
        | none => .noHandler room m
        | some h => if h room m then .handled room m else .handlerRaised room m
  else .skipped

/-- Embedding of `RedisManager.start_listening` over a stream of broker
events: every event is processed by the loop body, failures included. -/
def start_listening (handler : Option (String → Message → Bool))
    (events : List BrokerEvent) : List ListenResult :=
  events.map (processEvent handler)

/-- C7: the listener processes the entire stream (one result per event,
and a prefix — faulty or not — never affects the processing of the rest);
non-data-message events are skipped; and whenever the handler is invoked,
the room id is the channel name after the first colon and the message is
the decoded payload. -/
theorem claim_C7 (handler : Option (String → Message → Bool))
    (events tail : List BrokerEvent) :
    (start_listening handler events).length = events.length ∧
    start_listening handler (events ++ tail) =
      start_listening handler events ++ start_listening handler tail ∧
    (∀ ev ∈ events, ev.type ≠ "message" →
      processEvent handler ev = .skipped) ∧
    (∀ ev ∈ events, ∀ room m,
      (processEvent handler ev = .handled room m ∨
       processEvent handler ev = .handlerRaised room m) →
      splitFirstColon ev.channel = some room ∧
      decodePayload ev.data = some m) := by
  refine ⟨List.length_map _ _, List.map_append _ _ _, ?_, ?_⟩
  · intro ev _ h
    unfold processEvent
    rw [if_neg h]
  · intro ev _ room m hres
    unfold processEvent at hres
    by_cases ht : ev.type = "message"
    · rw [if_pos ht] at hres
      cases hsp : splitFirstColon ev.channel with
      | none =>
          rw [hsp] at hres
          rcases hres with h | h <;> exact ListenResult.noConfusion h
      | some room' =>
          rw [hsp] at hres
          simp only [] at hres
          cases hdec : decodePayload ev.data with
          | none =>
              rw [hdec] at hres
              rcases hres with h | h <;> exact ListenResult.noConfusion h
          | some m' =>
              rw [hdec] at hres
              simp only [] at hres
              cases handler with
              | none =>
                  rcases hres with h | h <;> exact ListenResult.noConfusion h
              | some hf =>
                  simp only [] at hres
                  by_cases hcall : hf room' m'
                  · rw [if_pos hcall] at hres
                    rcases hres with h | h
                    · cases h
                      exact ⟨rfl, rfl⟩
                    · exact ListenResult.noConfusion h
                  · rw [if_neg hcall] at hres
                    rcases hres with h | h
                    · exact ListenResult.noConfusion h
                    · cases h
                      exact ⟨rfl, rfl⟩
    · rw [if_neg ht] at hres
      rcases hres with h | h <;> exact ListenResult.noConfusion h

/-- C7 witness: a malformed payload, then a well-formed chat message, then
a subscribe-confirmation event, against an always-raising handler: all
three events are processed, and the non-data event is skipped. -/
theorem claim_C7_witness :
    (start_listening (some fun _ _ => false)
      [⟨"message", "room:general", RawPayload.malformed "oops"⟩,
       ⟨"message", "room:general", RawPayload.wire
         ⟨"u1", "alice", "general", "hi", "chat",
          "2024-01-01T12:00:00"⟩⟩,
       ⟨"subscribe", "room:general", RawPayload.malformed ""⟩]).length = 3 ∧
    processEvent (some fun _ _ => false)
      ⟨"subscribe", "room:general", RawPayload.malformed ""⟩ =
      ListenResult.skipped := by
  have h := claim_C7 (some fun _ _ => false)
    [⟨"message", "room:general", RawPayload.malformed "oops"⟩,
     ⟨"message", "room:general", RawPayload.wire
       ⟨"u1", "alice", "general", "hi", "chat", "2024-01-01T12:00:00"⟩⟩,
     ⟨"subscribe", "room:general", RawPayload.malformed ""⟩] []
  refine ⟨h.1, ?_⟩
  refine h.2.2.1 ⟨"subscribe", "room:general", RawPayload.malformed ""⟩
    ?_ (by decide)
  simp

/-! ## Gateway (embedding of `websocket_endpoint` in `main.py`) -/

/-- One event of a client connection's receive loop: a received text frame,
a transport-level disconnect (`WebSocketDisconnect` raised by
`receive_text`), or any other unrecoverable read error (the generic
`except Exception` arm). -/
inductive ClientEvent
  | text (data : String)
  | disconnected
  | errored
deriving DecidableEq, Repr

/-- An observable action of the gateway: closing the socket, registering
the connection, subscribing the relay, publishing a message to the relay,
or disconnecting the connection from the registry. -/
inductive GatewayEffect
  | close (code : Nat) (reason : String)
  | registryConnect (user : User) (room : String)
  | subscribeRoom (room : String)
  | publish (room : String) (message : Message)
  | registryDisconnect
deriving DecidableEq, Repr

/-- The `while True` receive loop of `websocket_endpoint` with its two
`except` arms: each received text is published as a chat message;
`WebSocketDisconnect` triggers registry disconnect followed by a leave
publish; any other exception triggers registry disconnect only.
`now` stands for the `datetime.utcnow()` clock (held fixed over the
trace). -/
def receiveLoop (user_id username room_id : String) (now : Datetime) :
    List ClientEvent → List GatewayEffect
  | [] => []
  | .text d :: rest =>
      .publish room_id ⟨user_id, username, room_id, d, .chat, now⟩ ::
        receiveLoop user_id username room_id now rest
  | .disconnected :: _ =>
      [.registryDisconnect,
       .publish room_id ⟨user_id, username, room_id,
         username ++ " left the room", .leave, now⟩]
  | .errored :: _ => [.registryDisconnect]

/-- Embedding of `websocket_endpoint`: resolve the username (default
`"Anonymous"`), reject an unknown room with close code 1008 and reason
`"Room not found"` before any other action, otherwise register the
connection, subscribe the relay, publish the join message and run the
receive loop. -/
def websocket_endpoint (rooms_db : List String) (room_id : String)
    (username_param : Option String) (user_id : String) (now : Datetime)
    (events : List ClientEvent) : List GatewayEffect :=
  let username := username_param.getD "Anonymous"
  if room_id ∈ rooms_db then
    .registryConnect ⟨user_id, username, some room_id⟩ room_id ::
    .subscribeRoom room_id ::
    .publish room_id ⟨user_id, username, room_id,
      username ++ " joined the room", .join, now⟩ ::
    receiveLoop user_id username room_id now events
  else [.close 1008 "Room not found"]

/-- The effect is a publish of a leave-typed message. -/
def isLeavePublish : GatewayEffect → Bool
  | .publish _ m => decide (m.message_type = MessageType.leave)
  | _ => false

/-- The effect is a publish of a join-typed message. -/
def isJoinPublish : GatewayEffect → Bool
  | .publish _ m => decide (m.message_type = MessageType.join)
  | _ => false

/-- The effect is a registry disconnect. -/
def isRegistryDisconnect : GatewayEffect → Bool
  | .registryDisconnect => true
  | _ => false

/-! ### Claim C9 -/

/-- C9: a websocket request for a room id with no entry in the
room-metadata store produces exactly one effect — closing the connection
with code 1008 and reason "Room not found" — so the gateway never calls
connect, never subscribes the relay and never publishes for a rejected
room id. -/
theorem claim_C9 (rooms_db : List String) (room_id : String)
    (username_param : Option String) (user_id : String) (now : Datetime)
    (events : List ClientEvent) (h : room_id ∉ rooms_db) :
    websocket_endpoint rooms_db room_id username_param user_id now events =
      [GatewayEffect.close 1008 "Room not found"] := by
  unfold websocket_endpoint
  rw [if_neg h]

/-- C9 witness: requesting the unknown room `"nope"` against the default
room store. -/
theorem claim_C9_witness :
    websocket_endpoint ["general", "random", "tech"] "nope" (some "alice")
      "u1" ⟨2024, 1, 1, 12, 0, 0, 0⟩ [ClientEvent.text "hi"] =
      [GatewayEffect.close 1008 "Room not found"] :=
  claim_C9 ["general", "random", "tech"] "nope" (some "alice") "u1"
    ⟨2024, 1, 1, 12, 0, 0, 0⟩ [ClientEvent.text "hi"] (by decide)

/-! ### Claim C4 -/

/-- C4 fails as stated: when the connection leaves the `Active` state via a
generic unrecoverable read error (the `except Exception` arm), the gateway
calls `ConnectionManager.disconnect` but publishes no leave message — the
leave publish lives only in the `WebSocketDisconnect` arm. -/
theorem claim_C4_counterexample :
    (websocket_endpoint ["general"] "general" (some "alice") "u1"
      ⟨2024, 1, 1, 12, 0, 0, 0⟩ [ClientEvent.errored]).countP
        isRegistryDisconnect = 1 ∧
    (websocket_endpoint ["general"] "general" (some "alice") "u1"
      ⟨2024, 1, 1, 12, 0, 0, 0⟩ [ClientEvent.errored]).countP
        isLeavePublish = 0 := by
  decide

/-- C4 (amended): for every connection to a known room whose receive loop
sees text frames and then terminates: on a transport-level disconnect the
gateway performs exactly one registry disconnect and publishes exactly one
leave message carrying the session's username and room id (and exactly one
join was published); on any other unrecoverable read error it performs
exactly one registry disconnect, publishes no leave message, and exactly
one join was published. -/
theorem claim_C4 (rooms_db : List String) (room_id : String)
    (username_param : Option String) (user_id : String) (now : Datetime)
    (pre post : List ClientEvent) (hroom : room_id ∈ rooms_db)
    (hpre : ∀ e ∈ pre, ∃ d, e = ClientEvent.text d) :
    ((websocket_endpoint rooms_db room_id username_param user_id now
        (pre ++ ClientEvent.disconnected :: post)).countP
          isRegistryDisconnect = 1 ∧
     (websocket_endpoint rooms_db room_id username_param user_id now
        (pre ++ ClientEvent.disconnected :: post)).countP isLeavePublish = 1 ∧
     (websocket_endpoint rooms_db room_id username_param user_id now
        (pre ++ ClientEvent.disconnected :: post)).countP isJoinPublish = 1 ∧
     GatewayEffect.publish room_id
       ⟨user_id, username_param.getD "Anonymous", room_id,
        username_param.getD "Anonymous" ++ " left the room",
        MessageType.leave, now⟩ ∈
       websocket_endpoint rooms_db room_id username_param user_id now
         (pre ++ ClientEvent.disconnected :: post)) ∧
    ((websocket_endpoint rooms_db room_id username_param user_id now
        (pre ++ ClientEvent.errored :: post)).countP
          isRegistryDisconnect = 1 ∧
     (websocket_endpoint rooms_db room_id username_param user_id now
        (pre ++ ClientEvent.errored :: post)).countP isLeavePublish = 0 ∧
     (websocket_endpoint rooms_db room_id username_param user_id now
        (pre ++ ClientEvent.errored :: post)).countP isJoinPublish = 1) := by
  have hloop : ∀ tailev : ClientEvent, ∀ evs,
      (∀ e ∈ evs, ∃ d, e = ClientEvent.text d) →
      receiveLoop user_id (username_param.getD "Anonymous") room_id now
        (evs ++ tailev :: post) =
      (evs.filterMap (fun e => match e with
        | ClientEvent.text d => some (GatewayEffect.publish room_id
            ⟨user_id, username_param.getD "Anonymous", room_id, d,
             MessageType.chat, now⟩)
        | _ => none)) ++
      receiveLoop user_id (username_param.getD "Anonymous") room_id now
        (tailev :: post) := by
    intro tailev evs hevs
    induction evs with
    | nil => rfl
    | cons e rest ih =>
        obtain ⟨d, rfl⟩ := hevs e (List.mem_cons_self _ _)
        rw [List.cons_append]
        rw [show receiveLoop user_id (username_param.getD "Anonymous") room_id
            now (ClientEvent.text d :: (rest ++ tailev :: post)) =
          GatewayEffect.publish room_id
            ⟨user_id, username_param.getD "Anonymous", room_id, d,
             MessageType.chat, now⟩ ::
          receiveLoop user_id (username_param.getD "Anonymous") room_id now
            (rest ++ tailev :: post) from rfl]
        rw [ih (fun e' he' => hevs e' (List.mem_cons_of_mem _ he'))]
        rw [List.filterMap_cons]
        simp only []
        rw [List.cons_append]
  have hchatcount : ∀ (p : GatewayEffect → Bool),
      (∀ room m, m.message_type = MessageType.chat →
        p (GatewayEffect.publish room m) = false) →
      ∀ evs : List ClientEvent, (∀ e ∈ evs, ∃ d, e = ClientEvent.text d) →
      (evs.filterMap (fun e => match e with
        | ClientEvent.text d => some (GatewayEffect.publish room_id
            ⟨user_id, username_param.getD "Anonymous", room_id, d,
             MessageType.chat, now⟩)
        | _ => none)).countP p = 0 := by
    intro p hp evs hevs
    induction evs with
    | nil => rfl
    | cons e rest ih =>
        obtain ⟨d, rfl⟩ := hevs e (List.mem_cons_self _ _)
        rw [List.filterMap_cons]
        simp only []
        rw [List.countP_cons]
        rw [ih (fun e' he' => hevs e' (List.mem_cons_of_mem _ he'))]
        rw [hp room_id _ rfl]
        rfl
  unfold websocket_endpoint
  rw [if_pos hroom]
  rw [if_pos hroom]
  rw [hloop ClientEvent.disconnected pre hpre,
      hloop ClientEvent.errored pre hpre]
  refine ⟨⟨?_, ?_, ?_, ?_⟩, ?_, ?_, ?_⟩
  · rw [List.countP_cons, List.countP_cons, List.countP_cons,
      List.countP_append,
      hchatcount isRegistryDisconnect (fun _ _ _ => rfl) pre hpre]
    rfl
  · rw [List.countP_cons, List.countP_cons, List.countP_cons,
      List.countP_append,
      hchatcount isLeavePublish (by intro room m hm; simp [isLeavePublish, hm]) pre hpre]
    rfl
  · rw [List.countP_cons, List.countP_cons, List.countP_cons,
      List.countP_append,
      hchatcount isJoinPublish (by intro room m hm; simp [isJoinPublish, hm]) pre hpre]
    rfl
  · refine List.mem_cons_of_mem _ (List.mem_cons_of_mem _
      (List.mem_cons_of_mem _ (List.mem_append_right _ ?_)))
    unfold receiveLoop
    exact List.mem_cons_of_mem _ (List.mem_cons_self _ _)
  · rw [List.countP_cons, List.countP_cons, List.countP_cons,
      List.countP_append,
      hchatcount isRegistryDisconnect (fun _ _ _ => rfl) pre hpre]
    rfl
  · rw [List.countP_cons, List.countP_cons, List.countP_cons,
      List.countP_append,
      hchatcount isLeavePublish (by intro room m hm; simp [isLeavePublish, hm]) pre hpre]
    rfl
  · rw [List.countP_cons, List.countP_cons, List.countP_cons,
      List.countP_append,
      hchatcount isJoinPublish (by intro room m hm; simp [isJoinPublish, hm]) pre hpre]
    rfl

/-- C4 witness: alice sends one text frame and then the transport
disconnects (first conjunct), or the read errors (second conjunct). -/
theorem claim_C4_witness :
    ((websocket_endpoint ["general"] "general" (some "alice") "u1"
        ⟨2024, 1, 1, 12, 0, 0, 0⟩
        ([ClientEvent.text "hi"] ++ ClientEvent.disconnected :: [])).countP
          isRegistryDisconnect = 1 ∧
     (websocket_endpoint ["general"] "general" (some "alice") "u1"
        ⟨2024, 1, 1, 12, 0, 0, 0⟩
        ([ClientEvent.text "hi"] ++ ClientEvent.disconnected :: [])).countP
          isLeavePublish = 1 ∧
     (websocket_endpoint ["general"] "general" (some "alice") "u1"
        ⟨2024, 1, 1, 12, 0, 0, 0⟩
        ([ClientEvent.text "hi"] ++ ClientEvent.disconnected :: [])).countP
          isJoinPublish = 1 ∧
     GatewayEffect.publish "general"
       ⟨"u1", (some "alice").getD "Anonymous",
        "general", (some "alice").getD "Anonymous" ++ " left the room",
        MessageType.leave, ⟨2024, 1, 1, 12, 0, 0, 0⟩⟩ ∈
       websocket_endpoint ["general"] "general" (some "alice") "u1"
         ⟨2024, 1, 1, 12, 0, 0, 0⟩
         ([ClientEvent.text "hi"] ++ ClientEvent.disconnected :: [])) ∧
    ((websocket_endpoint ["general"] "general" (some "alice") "u1"
        ⟨2024, 1, 1, 12, 0, 0, 0⟩
        ([ClientEvent.text "hi"] ++ ClientEvent.errored :: [])).countP
          isRegistryDisconnect = 1 ∧
     (websocket_endpoint ["general"] "general" (some "alice") "u1"
        ⟨2024, 1, 1, 12, 0, 0, 0⟩
        ([ClientEvent.text "hi"] ++ ClientEvent.errored :: [])).countP
          isLeavePublish = 0 ∧
     (websocket_endpoint ["general"] "general" (some "alice") "u1"
        ⟨2024, 1, 1, 12, 0, 0, 0⟩
        ([ClientEvent.text "hi"] ++ ClientEvent.errored :: [])).countP
          isJoinPublish = 1) :=
  claim_C4 ["general"] "general" (some "alice") "u1"
    ⟨2024, 1, 1, 12, 0, 0, 0⟩ [ClientEvent.text "hi"] [] (by decide)
    (by intro e he
        refine ⟨"hi", ?_⟩
        simpa using he)

/-! ## Relay guards (embedding of `redis_manager.py`) -/

/-- The state of a `RedisManager`: the broker connection handle and the
pubsub handle (with its subscribed channel set), both absent until
`connect()` succeeds. -/
structure RedisManager where
  redis_url : String
  redis_client : Option Unit
  pubsub : Option (List String)
deriving DecidableEq, Repr

namespace RedisManager

/-- Embedding of `RedisManager.publish_message`: with no client the error
is logged and the call returns with nothing published; otherwise the
serialized message goes to channel `room:{room_id}`.  The result carries
the (unchanged) manager state, the published `(channel, payload)` list and
whether the guard logged an error. -/
def publish_message (r : RedisManager) (room_id : String)
    (message : Message) : RedisManager × List (String × WireMessage) × Bool :=
  match r.redis_client with
  | none => (r, [], true)
  | some _ => (r, [("room:" ++ room_id, message.model_dump_wire)], false)

/-- Embedding of `RedisManager.subscribe_to_room`: with no pubsub handle
the error is logged and the call returns leaving the subscription set
untouched; otherwise the channel `room:{room_id}` is added. -/
def subscribe_to_room (r : RedisManager) (room_id : String) :
    RedisManager × Bool :=
  match r.pubsub with
  | none => (r, true)
  | some chans =>
      ({ r with pubsub := some (setAdd ("room:" ++ room_id) chans) }, false)

/-- C10: calling `publish_message` or `subscribe_to_room` before
`connect()` has succeeded returns normally as a logged no-op: no state is
mutated and nothing reaches the broker. -/
theorem claim_C10 (r : RedisManager) (room_id : String) (message : Message) :
    (r.redis_client = none →
      r.publish_message room_id message = (r, [], true)) ∧
    (r.pubsub = none → r.subscribe_to_room room_id = (r, true)) := by
  constructor
  · intro h
    unfold publish_message
    rw [h]
  · intro h
    unfold subscribe_to_room
    rw [h]

/-- C10 witness: a freshly constructed manager on which `connect()` has
not run. -/
theorem claim_C10_witness :
    RedisManager.publish_message ⟨"redis://localhost:6379", none, none⟩
      "general" ⟨"u1", "alice", "general", "hi", MessageType.chat,
        ⟨2024, 1, 1, 12, 0, 0, 0⟩⟩ =
      (⟨"redis://localhost:6379", none, none⟩, [], true) ∧
    RedisManager.subscribe_to_room ⟨"redis://localhost:6379", none, none⟩
      "general" = (⟨"redis://localhost:6379", none, none⟩, true) :=
  ⟨(claim_C10 ⟨"redis://localhost:6379", none, none⟩ "general"
      ⟨"u1", "alice", "general", "hi", MessageType.chat,
       ⟨2024, 1, 1, 12, 0, 0, 0⟩⟩).1 rfl,
   (claim_C10 ⟨"redis://localhost:6379", none, none⟩ "general"
      ⟨"u1", "alice", "general", "hi", MessageType.chat,
       ⟨2024, 1, 1, 12, 0, 0, 0⟩⟩).2 rfl⟩

end RedisManager

end Chat
